import Mathlib

/-!
# The control-channel character device of `cdev.c`

A shallow embedding of the file operations of `src/cdev.c`
(`satan_cdev_open`, `satan_cdev_close`, `satan_cdev_read`, `satan_cdev_write`)
together with the kernel routines they call, followed by theorems about them.

Conventions of the embedding:

* a byte (`char`) is a `Nat`; the code only ever compares bytes with `'\n'` (10)
  and with the string terminator (0), it does no arithmetic on them;
* `satan_cdev.buf` is a `List Nat`; theorems assume its length is `CDEV_BUF_SIZE`;
* `loff_t`, `ssize_t` and `int` values are `Int`, `size_t` values are `Nat`;
  conversions between them wrap explicitly (`to_size_t`, `to_int`, `to_loff_t`);
* the user-space pointer handed to `write` is the list of bytes readable there,
  the one handed to `read` is the number of bytes writable there, so a copy
  faults exactly when fewer bytes than requested are accessible;
* an access outside the 128 bytes of `satan_cdev.buf` has no defined result in
  C: the model reports it as `Except.error undefined_behaviour.out_of_bounds`.
-/

namespace Cdev

/-! ## Constants -/

/-- The buffer capacity: `#define CDEV_BUF_SIZE 128`. -/
def CDEV_BUF_SIZE : Nat := 128

/-- Errno value of "no space left on device" (`<uapi/asm-generic/errno-base.h>`). -/
def ENOSPC : Int := 28

/-- Errno value of "bad address" (`<uapi/asm-generic/errno-base.h>`). -/
def EFAULT : Int := 14

/-- Errno value of "interrupted system call" (`<uapi/asm-generic/errno-base.h>`). -/
def EINTR : Int := 4

/-- The newline character `'\n'`. -/
def NEWLINE : Nat := 10

/-! ## Machine integers -/

/-- Conversion of a signed value to `size_t` (64-bit unsigned), as in `(size_t) *offset`. -/
def to_size_t (x : Int) : Nat := (x % 18446744073709551616).toNat

/-- Subtraction of two `size_t` values, modulo `2^64`. -/
def size_t_sub (a b : Nat) : Nat :=
  (a % 18446744073709551616 + 18446744073709551616 - b % 18446744073709551616)
    % 18446744073709551616

/-- Conversion to `int` (32-bit two's complement), as in `int ret = <size_t value>`. -/
def to_int (x : Int) : Int := (x + 2147483648) % 4294967296 - 2147483648

/-- Conversion to `loff_t` (64-bit two's complement), the type of `*offset`. -/
def to_loff_t (x : Int) : Int :=
  (x + 9223372036854775808) % 18446744073709551616 - 9223372036854775808

/-! ## Device state and results -/

/-- The fields of `static struct satan_cdev` that the file operations touch:
the count of `semaphore` and the bytes of `buf`. -/
structure satan_cdev where
  semaphore : Nat
  buf : List Nat
deriving DecidableEq

/-- The one way a read or write call can leave the C abstract machine: an
access outside `satan_cdev.buf`. -/
inductive undefined_behaviour where
  | out_of_bounds
deriving DecidableEq

/-- What a call of `satan_cdev_read` leaves behind: the value returned, the
caller's `*offset`, the bytes stored at the user pointer, and the device. -/
structure read_result where
  ret : Int
  offset : Int
  user : List Nat
  dev : satan_cdev
deriving DecidableEq

/-- What a call of `satan_cdev_write` leaves behind: the value returned, the
caller's `*offset`, the device, and the string handed to `satan_command_parse`
(`none` when the interpreter was not called). -/
structure write_result where
  ret : Int
  offset : Int
  dev : satan_cdev
  dispatched : Option (List Nat)
deriving DecidableEq

/-! ## Kernel routines used by the driver -/

/-- Kernel `memset(s, c, n)`: the first `n` bytes of `s` become `c`. -/
def memset (s : List Nat) (c : Nat) (n : Nat) : List Nat :=
  List.replicate (min n s.length) c ++ s.drop n

/-- The loop of the kernel's `strrchr` (`lib/string.c`):
`do { if (*s == c) last = s; } while (*s++);`.
`i` is the index of `*s`; `none` means the loop left the object before
meeting a terminator. -/
def strrchr_loop (c : Nat) : List Nat → Nat → Option Nat → Option (Option Nat)
  | [], _, _ => none
  | b :: rest, i, last =>
    let last' := if b = c then some i else last
    if b = 0 then some last' else strrchr_loop c rest (i + 1) last'

/-- Kernel `strrchr(s, c)`: index of the last `c` in the C string held in the
object `s`, `some none` for `NULL`, `none` when the object holds no terminator. -/
def strrchr (s : List Nat) (c : Nat) : Option (Option Nat) :=
  strrchr_loop c s 0 none

/-- The C string that starts at byte 0 of `s`: the bytes before the first
terminator. -/
def c_string (s : List Nat) : List Nat :=
  s.takeWhile (fun b => b ≠ 0)

/-- Kernel `copy_from_user(dst + pos, user, n)`. `user` lists the bytes readable
at the user pointer. The readable bytes are copied, the rest of the `n` bytes
is padded with zero, and the number of bytes that could not be copied is
returned. `none`: the destination range is not inside `dst`. -/
def copy_from_user (dst : List Nat) (pos : Int) (user : List Nat) (n : Nat) :
    Option (List Nat × Nat) :=
  if n = 0 then some (dst, 0)
  else if 0 ≤ pos ∧ pos + n ≤ dst.length then
    let got := user.take n
    let bytes := got ++ List.replicate (n - got.length) 0
    some (dst.take pos.toNat ++ bytes ++ dst.drop (pos.toNat + n), n - got.length)
  else none

/-- Kernel `copy_to_user(user, src + pos, n)`. `writable` is the number of bytes
that can be stored at the user pointer. Returns the bytes stored there and the
number of bytes that could not be copied. `none`: the source range is not
inside `src`. -/
def copy_to_user (writable : Nat) (src : List Nat) (pos : Int) (n : Nat) :
    Option (List Nat × Nat) :=
  if n = 0 then some ([], 0)
  else if 0 ≤ pos ∧ pos + n ≤ src.length then
    some ((src.drop pos.toNat).take (min n writable), n - min n writable)
  else none

/-- Kernel `down_interruptible` on the semaphore count: takes a permit when one
is there; otherwise the caller sleeps and the call ends with `-EINTR` when a
signal arrives. `none`: the caller is still asleep. -/
def down_interruptible (count : Nat) (interrupted : Bool) : Option (Int × Nat) :=
  if 0 < count then some (0, count - 1)
  else if interrupted then some (-EINTR, count)
  else none

/-- Kernel `up` on the semaphore count. -/
def up (count : Nat) : Nat := count + 1

/-! ## The file operations of `cdev.c` -/

/-- The state `satan_cdev_init` leaves on success (lines 89-94):
`sema_init(&satan_cdev.semaphore, 1)` and `memset(satan_cdev.buf, 0, CDEV_BUF_SIZE)`. -/
def constructed : satan_cdev :=
  { semaphore := 1, buf := List.replicate CDEV_BUF_SIZE 0 }

/-- Source `satan_cdev_open` (lines 115-123). -/
def satan_cdev_open (dev : satan_cdev) (interrupted : Bool) : Option (Int × satan_cdev) :=
  match down_interruptible dev.semaphore interrupted with
  | none => none
  | some (r, count) =>
    if 0 ≠ r then some (-1, { dev with semaphore := count })
    else some (0, { dev with semaphore := count })

/-- Source `satan_cdev_close` (lines 125-129). -/
def satan_cdev_close (dev : satan_cdev) : Int × satan_cdev :=
  (0, { dev with semaphore := up dev.semaphore })

/-- Source `satan_cdev_read` (lines 131-152). -/
def satan_cdev_read (dev : satan_cdev) (writable : Nat) (len : Nat) (offset : Int) :
    Except undefined_behaviour read_result :=
  if (CDEV_BUF_SIZE : Int) ≤ offset then
    .ok { ret := 0, offset := offset, user := [], dev := dev }
  else
    let ret : Int :=
      to_int ((min len (size_t_sub CDEV_BUF_SIZE (to_size_t offset)) : Nat) : Int)
    match copy_to_user writable dev.buf offset (to_size_t ret) with
    | none => .error .out_of_bounds
    | some (stored, uncopied) =>
      if uncopied ≠ 0 then
        .ok { ret := -EFAULT, offset := offset, user := stored, dev := dev }
      else
        .ok { ret := ret, offset := to_loff_t (offset + ret), user := stored, dev := dev }

/-- The block after the label `parse:` of `satan_cdev_write` (lines 180-189),
entered with the value of `ret` and of `*offset`. -/
def satan_cdev_write_parse (satan_command_parse : List Nat → Int) (dev : satan_cdev)
    (ret : Int) (offset : Int) : Except undefined_behaviour write_result :=
  match strrchr dev.buf NEWLINE with
  | none => .error .out_of_bounds
  | some newline =>
    let buf1 := match newline with
      | some i => dev.buf.set i 0
      | none => dev.buf
    let _ := satan_command_parse (c_string buf1)
    .ok { ret := ret, offset := offset,
          dev := { dev with buf := memset buf1 0 CDEV_BUF_SIZE },
          dispatched := some (c_string buf1) }

/-- Source `satan_cdev_write` (lines 154-190). `satan_command_parse` is the
command interpreter of `command.h`; its result is not used. -/
def satan_cdev_write (satan_command_parse : List Nat → Int) (dev : satan_cdev)
    (user : List Nat) (len : Nat) (offset : Int) : Except undefined_behaviour write_result :=
  if (CDEV_BUF_SIZE : Int) ≤ offset then
    satan_cdev_write_parse satan_command_parse dev 0 offset
  else if size_t_sub CDEV_BUF_SIZE (to_size_t offset) < len then
    .ok { ret := -ENOSPC, offset := offset, dev := dev, dispatched := none }
  else
    match copy_from_user dev.buf offset user len with
    | none => .error .out_of_bounds
    | some (buf', uncopied) =>
      if uncopied ≠ 0 then
        .ok { ret := -EFAULT, offset := offset, dev := { dev with buf := buf' },
              dispatched := none }
      else
        let ret : Int := to_int len
        satan_cdev_write_parse satan_command_parse { dev with buf := buf' } ret
          (to_loff_t (offset + ret))

/-- The buffer content `buf` with `data` stored from index `pos` on: the bytes
`buf[pos : pos + len(data)]` are those of `data`, all others are unchanged. -/
def overlay (buf : List Nat) (pos : Nat) (data : List Nat) : List Nat :=
  buf.take pos ++ data ++ buf.drop (pos + data.length)

/-- The buffer with every byte zero. -/
def zero_buf : List Nat := List.replicate CDEV_BUF_SIZE 0

/-! ## Sequences of calls -/

/-- Consecutive writes of one session: every write starts at the `*offset` the
previous call left, and hands over exactly the bytes of its data. The results
of the calls are collected in order. -/
def write_all (satan_command_parse : List Nat → Int) (dev : satan_cdev) (offset : Int) :
    List (List Nat) → Except undefined_behaviour (List write_result)
  | [] => .ok []
  | data :: more =>
    match satan_cdev_write satan_command_parse dev data data.length offset with
    | .error e => .error e
    | .ok r =>
      match write_all satan_command_parse r.dev r.offset more with
      | .error e => .error e
      | .ok rs => .ok (r :: rs)

/-- The strings handed to the interpreter by a series of write calls, in order. -/
def payloads (rs : List write_result) : List (List Nat) :=
  rs.filterMap (fun r => r.dispatched)

/-- A file operation invoked by the session `sid` (one session per opened file). -/
inductive call where
  | op_open (sid : Nat) (interrupted : Bool)
  | op_close (sid : Nat)
  | op_read (sid : Nat) (writable : Nat) (len : Nat) (offset : Int)
  | op_write (sid : Nat) (user : List Nat) (len : Nat) (offset : Int)
deriving DecidableEq

/-- The device together with the sessions that are between a successful
`satan_cdev_open` and their `satan_cdev_close`. -/
structure system where
  dev : satan_cdev
  inside : List Nat
deriving DecidableEq

/-- The system right after a successful `satan_cdev_init`: nobody is inside. -/
def system_init : system := { dev := constructed, inside := [] }

/-- One completed call. `none`: the call cannot complete in this state (an open
still asleep on the semaphore, an operation on a file the session has not
opened, or a call without defined result). The kernel calls `release`, `read`
and `write` only for a file whose `open` returned 0. -/
def step (satan_command_parse : List Nat → Int) (s : system) : call → Option system
  | .op_open sid interrupted =>
    match satan_cdev_open s.dev interrupted with
    | none => none
    | some (r, dev') =>
      if r = 0 then some { dev := dev', inside := sid :: s.inside }
      else some { dev := dev', inside := s.inside }
  | .op_close sid =>
    if sid ∈ s.inside then
      some { dev := (satan_cdev_close s.dev).2, inside := s.inside.erase sid }
    else none
  | .op_read sid writable len offset =>
    if sid ∈ s.inside then
      match satan_cdev_read s.dev writable len offset with
      | .ok r => some { dev := r.dev, inside := s.inside }
      | .error _ => none
    else none
  | .op_write sid user len offset =>
    if sid ∈ s.inside then
      match satan_cdev_write satan_command_parse s.dev user len offset with
      | .ok r => some { dev := r.dev, inside := s.inside }
      | .error _ => none
    else none

/-- A series of completed calls, from left to right. -/
def run (satan_command_parse : List Nat → Int) (s : system) : List call → Option system
  | [] => some s
  | c :: cs =>
    match step satan_command_parse s c with
    | none => none
    | some s' => run satan_command_parse s' cs

/-- The states the system can be in after `satan_cdev_init` succeeded. -/
def reachable (satan_command_parse : List Nat → Int) (s : system) : Prop :=
  ∃ cs, run satan_command_parse system_init cs = some s

/-! ## Module start -/

/-- What the kernel answers to the registration calls made by `satan_cdev_init`:
the return values of `alloc_chrdev_region` and `cdev_add`, whether `cdev_alloc`
returns an object (not `NULL`), and whether `class_create` and `device_create`
return a valid pointer (not `IS_ERR`). -/
structure init_env where
  alloc_chrdev_region : Int
  cdev_alloc : Bool
  cdev_add : Int
  class_create : Bool
  device_create : Bool
deriving DecidableEq

/-- The kernel resources held for the driver: the device number region
(`satan_cdev.num`), the allocated cdev object (`satan_cdev.cdev`), its
registration by `cdev_add`, the class `/sys/class/.satan` and the node
`/dev/.satan`. -/
structure resources where
  num : Bool
  cdev : Bool
  cdev_added : Bool
  sysfs_class : Bool
  node : Bool
deriving DecidableEq

/-- Nothing is held. -/
def no_resources : resources :=
  { num := false, cdev := false, cdev_added := false, sysfs_class := false, node := false }

/-- What a call of `satan_cdev_init` leaves behind: the value returned, the
resources held in the kernel, and the device. -/
structure init_result where
  ret : Int
  held : resources
  dev : satan_cdev
deriving DecidableEq

/-- Source `satan_cdev_init` (lines 37-102). Every failure path is `goto out`,
and `out:` only logs and returns `ret`. `none`: the result of `cdev_alloc` is
dereferenced at line 58 without a test, which has no defined result for `NULL`. -/
def satan_cdev_init (env : init_env) (dev : satan_cdev) : Option init_result :=
  let ret := env.alloc_chrdev_region
  if ret ≠ 0 then
    some { ret := ret, held := no_resources, dev := dev }
  else if env.cdev_alloc = false then
    none
  else
    let ret := env.cdev_add
    if ret ≠ 0 then
      some { ret := ret, held := { no_resources with num := true, cdev := true }, dev := dev }
    else if env.class_create = false then
      some { ret := -1,
             held := { no_resources with num := true, cdev := true, cdev_added := true },
             dev := dev }
    else if env.device_create = false then
      some { ret := -1,
             held := { num := true, cdev := true, cdev_added := true, sysfs_class := true,
                       node := false },
             dev := dev }
    else
      some { ret := 0,
             held := { num := true, cdev := true, cdev_added := true, sysfs_class := true,
                       node := true },
             dev := { semaphore := 1, buf := memset dev.buf 0 CDEV_BUF_SIZE } }

/-- A kernel in which every registration call succeeds. -/
def env_ok : init_env :=
  { alloc_chrdev_region := 0, cdev_alloc := true, cdev_add := 0, class_create := true,
    device_create := true }

/-- A call at a file position (`0 ≤ offset`) in which no copy from user space
faults: whenever `satan_cdev_write` gets to `copy_from_user` (the offset is
below `C` and `len` fits), all `len` bytes are readable. -/
def fault_free : call → Prop
  | .op_open _ _ => True
  | .op_close _ => True
  | .op_read _ _ _ offset => 0 ≤ offset
  | .op_write _ user len offset =>
    0 ≤ offset ∧ (offset < CDEV_BUF_SIZE → (len : Int) ≤ CDEV_BUF_SIZE - offset →
      len ≤ user.length)

/-! ## Sample data -/

/-- The bytes of `"help"`. -/
def text_help : List Nat := [104, 101, 108, 112]

/-- The bytes of `"cmdA\ncmdB\n"`. -/
def text_two_lines : List Nat := [99, 109, 100, 65, 10, 99, 109, 100, 66, 10]

/-- An interpreter that reports success for every command. -/
def parse_ok : List Nat → Int := fun _ => 0

deriving instance DecidableEq for Except

set_option maxRecDepth 100000

/-! ## Lemmas on the kernel routines -/

theorem strrchr_loop_no_newline (body rest : List Nat) (i : Nat) (last : Option Nat)
    (h0 : 0 ∉ body) (hn : NEWLINE ∉ body) :
    strrchr_loop NEWLINE (body ++ 0 :: rest) i last = some last := by
  induction body generalizing i with
  | nil => simp [strrchr_loop, NEWLINE]
  | cons b bs ih =>
    simp only [List.mem_cons, not_or] at h0 hn
    have hb0 : b ≠ 0 := fun h => h0.1 h.symm
    have hbn : b ≠ NEWLINE := fun h => hn.1 h.symm
    simp [strrchr_loop, hb0, hbn, ih (i + 1) h0.2 hn.2]

theorem strrchr_loop_at_newline (pre tl : List Nat) (i : Nat) (last : Option Nat)
    (h0 : 0 ∉ pre) :
    strrchr_loop NEWLINE (pre ++ NEWLINE :: tl) i last
      = strrchr_loop NEWLINE tl (i + pre.length + 1) (some (i + pre.length)) := by
  induction pre generalizing i last with
  | nil => simp [strrchr_loop, NEWLINE]
  | cons b bs ih =>
    simp only [List.mem_cons, not_or] at h0
    have hb0 : b ≠ 0 := fun h => h0.1 h.symm
    have step := ih (i + 1) (if b = NEWLINE then some i else last) h0.2
    rw [List.cons_append, strrchr_loop]
    simp only [hb0, if_false, List.length_cons]
    rw [step]
    congr 2 <;> omega

theorem strrchr_loop_eq_none (c : Nat) (l : List Nat) (i : Nat) (last : Option Nat) :
    strrchr_loop c l i last = none ↔ 0 ∉ l := by
  induction l generalizing i last with
  | nil => simp [strrchr_loop]
  | cons b bs ih =>
    by_cases hb : b = 0
    · simp [strrchr_loop, hb]
    · have hb' : ¬ (0 = b) := fun h => hb h.symm
      simp [strrchr_loop, hb, hb', ih]

theorem c_string_append_nul (body rest : List Nat) (h0 : 0 ∉ body) :
    c_string (body ++ 0 :: rest) = body := by
  unfold c_string
  rw [List.takeWhile_append_of_pos]
  · simp
  · intro a ha
    have : a ≠ 0 := fun h => h0 (h ▸ ha)
    simpa using this

theorem strrchr_last_newline (pre post rest : List Nat)
    (h0 : 0 ∉ pre) (h0' : 0 ∉ post) (hn : NEWLINE ∉ post) :
    strrchr (pre ++ NEWLINE :: (post ++ 0 :: rest)) NEWLINE = some (some pre.length) := by
  unfold strrchr
  rw [strrchr_loop_at_newline pre _ 0 none h0, strrchr_loop_no_newline post rest _ _ h0' hn]
  simp

theorem set_newline_nul (pre tl : List Nat) :
    (pre ++ NEWLINE :: tl).set pre.length 0 = pre ++ 0 :: tl := by
  rw [List.set_append_right _ _ (le_refl _)]
  simp

theorem memset_whole (s : List Nat) (h : s.length = CDEV_BUF_SIZE) :
    memset s 0 CDEV_BUF_SIZE = List.replicate CDEV_BUF_SIZE 0 := by
  unfold memset
  rw [List.drop_eq_nil_of_le (le_of_eq h), h]
  simp

/-! ## Lemmas on the write path -/

theorem copy_from_user_all (dst data : List Nat) (pos : Int)
    (h0 : 0 ≤ pos) (hfit : pos + data.length ≤ dst.length) :
    copy_from_user dst pos data data.length = some (overlay dst pos.toNat data, 0) := by
  unfold copy_from_user overlay
  by_cases hn : data.length = 0
  · have : data = [] := List.length_eq_zero.1 hn
    subst this
    simp
  · simp [hn, h0, hfit]

theorem write_parse_plain (parse : List Nat → Int) (dev : satan_cdev) (body rest : List Nat)
    (ret off : Int) (hb : dev.buf = body ++ 0 :: rest) (hl : dev.buf.length = CDEV_BUF_SIZE)
    (h0 : 0 ∉ body) (hn : NEWLINE ∉ body) :
    satan_cdev_write_parse parse dev ret off
      = .ok { ret := ret, offset := off, dev := { dev with buf := zero_buf },
              dispatched := some body } := by
  unfold satan_cdev_write_parse strrchr
  rw [hb, strrchr_loop_no_newline body rest 0 none h0 hn]
  simp only [c_string_append_nul body rest h0]
  rw [memset_whole _ (hb ▸ hl)]
  rfl

theorem write_parse_newline (parse : List Nat → Int) (dev : satan_cdev)
    (pre post rest : List Nat) (ret off : Int)
    (hb : dev.buf = pre ++ NEWLINE :: (post ++ 0 :: rest))
    (hl : dev.buf.length = CDEV_BUF_SIZE)
    (h0 : 0 ∉ pre) (h0' : 0 ∉ post) (hn : NEWLINE ∉ post) :
    satan_cdev_write_parse parse dev ret off
      = .ok { ret := ret, offset := off, dev := { dev with buf := zero_buf },
              dispatched := some pre } := by
  unfold satan_cdev_write_parse
  rw [hb, strrchr_last_newline pre post rest h0 h0' hn]
  simp only [set_newline_nul, c_string_append_nul pre _ h0]
  rw [memset_whole]
  · rfl
  · rw [hb] at hl
    simpa using hl

theorem write_applied (parse : List Nat → Int) (dev : satan_cdev) (data : List Nat)
    (off : Int) (h0 : 0 ≤ off) (h1 : off < CDEV_BUF_SIZE)
    (hfit : (data.length : Int) ≤ CDEV_BUF_SIZE - off)
    (hl : dev.buf.length = CDEV_BUF_SIZE) :
    satan_cdev_write parse dev data data.length off
      = satan_cdev_write_parse parse { dev with buf := overlay dev.buf off.toNat data }
          data.length (off + data.length) := by
  unfold satan_cdev_write
  have hge : ¬ ((CDEV_BUF_SIZE : Int) ≤ off) := by omega
  have hsp : ¬ (size_t_sub CDEV_BUF_SIZE (to_size_t off) < data.length) := by
    unfold size_t_sub to_size_t CDEV_BUF_SIZE at *
    omega
  rw [if_neg hge, if_neg hsp, copy_from_user_all dev.buf data off h0 (by rw [hl]; omega)]
  have hret : to_int (data.length : Int) = data.length := by
    unfold to_int; unfold CDEV_BUF_SIZE at *; omega
  have hoff : to_loff_t (off + data.length) = off + data.length := by
    unfold to_loff_t; unfold CDEV_BUF_SIZE at *; omega
  simp [hret, hoff]

theorem overlay_length (buf data : List Nat) (pos : Nat) (h : pos + data.length ≤ buf.length) :
    (overlay buf pos data).length = buf.length := by
  unfold overlay
  simp only [List.length_append, List.length_take, List.length_drop]
  omega

theorem overlay_zero_start (data : List Nat) (h : data.length < CDEV_BUF_SIZE) :
    overlay zero_buf 0 data
      = data ++ 0 :: List.replicate (CDEV_BUF_SIZE - 1 - data.length) 0 := by
  unfold overlay zero_buf
  simp only [List.take_zero, List.nil_append, Nat.zero_add, List.drop_replicate]
  congr 1
  have : CDEV_BUF_SIZE - data.length = (CDEV_BUF_SIZE - 1 - data.length) + 1 := by omega
  rw [this, List.replicate_succ]

theorem overlay_zero_later (data : List Nat) (pos : Nat) (h0 : 0 < pos)
    (h1 : pos ≤ CDEV_BUF_SIZE) :
    ∃ rest, overlay zero_buf pos data = 0 :: rest := by
  unfold overlay zero_buf
  obtain ⟨k, rfl⟩ : ∃ k, pos = k + 1 := ⟨pos - 1, by omega⟩
  have : min (k + 1) CDEV_BUF_SIZE = k + 1 := by omega
  simp only [List.take_replicate, this, List.replicate_succ, List.cons_append]
  exact ⟨_, rfl⟩

theorem with_zero_buf (dev : satan_cdev) (h : dev.buf = zero_buf) :
    { dev with buf := zero_buf } = dev := by
  cases dev
  simp only at h
  subst h
  rfl

theorem c_string_of_no_nul (l : List Nat) (h0 : 0 ∉ l) : c_string l = l := by
  unfold c_string
  rw [List.takeWhile_eq_self_iff]
  intro a ha
  have : a ≠ 0 := fun h => h0 (h ▸ ha)
  simpa using this

theorem nul_mem_zero_buf : (0 : Nat) ∈ zero_buf := by
  unfold zero_buf CDEV_BUF_SIZE
  simp

theorem length_zero_buf : zero_buf.length = CDEV_BUF_SIZE := by
  simp [zero_buf]

/-- Framing of a buffer that holds a terminator always completes: the
interpreter is called and the buffer is cleared. -/
theorem write_parse_ok (parse : List Nat → Int) (dev : satan_cdev) (ret off : Int)
    (hl : dev.buf.length = CDEV_BUF_SIZE) (hz : 0 ∈ dev.buf) :
    ∃ p, satan_cdev_write_parse parse dev ret off
      = .ok { ret := ret, offset := off, dev := { dev with buf := zero_buf },
              dispatched := some p } := by
  unfold satan_cdev_write_parse
  cases hs : strrchr dev.buf NEWLINE with
  | none =>
    exact absurd hz ((strrchr_loop_eq_none NEWLINE dev.buf 0 none).1 hs)
  | some newline =>
    cases newline with
    | none => exact ⟨_, by simp only [memset_whole _ hl]; rfl⟩
    | some i =>
      refine ⟨c_string (dev.buf.set i 0), ?_⟩
      simp only [memset_whole _ ((List.length_set dev.buf i 0).trans hl)]
      rfl

/-- A write at a position behind the start of the cleared buffer hands the
empty string to the interpreter. -/
theorem write_zero_later (parse : List Nat → Int) (dev : satan_cdev) (data : List Nat)
    (off : Int) (hz : dev.buf = zero_buf) (h0 : 0 < off) (h1 : off < CDEV_BUF_SIZE)
    (hfit : (data.length : Int) ≤ CDEV_BUF_SIZE - off) :
    satan_cdev_write parse dev data data.length off
      = .ok { ret := data.length, offset := off + data.length, dev := dev,
              dispatched := some [] } := by
  have hl : dev.buf.length = CDEV_BUF_SIZE := by rw [hz]; exact length_zero_buf
  rw [write_applied parse dev data off (le_of_lt h0) h1 hfit hl]
  obtain ⟨rest, hr⟩ := overlay_zero_later data off.toNat (by omega) (by omega)
  have hlen : (overlay zero_buf off.toNat data).length = CDEV_BUF_SIZE := by
    rw [overlay_length _ _ _ (by rw [length_zero_buf]; omega), length_zero_buf]
  rw [hz]
  rw [write_parse_plain parse _ [] rest _ _ (by simpa using hr) hlen (by simp) (by simp)]
  cases dev
  simp only at hz
  subst hz
  rfl

/-- A write at or behind the end of the cleared buffer stores nothing, returns
0 and hands the empty string to the interpreter. -/
theorem write_zero_full (parse : List Nat → Int) (dev : satan_cdev) (user : List Nat)
    (len : Nat) (off : Int) (hz : dev.buf = zero_buf) (h1 : (CDEV_BUF_SIZE : Int) ≤ off) :
    satan_cdev_write parse dev user len off
      = .ok { ret := 0, offset := off, dev := dev, dispatched := some [] } := by
  unfold satan_cdev_write
  rw [if_pos h1]
  have hb : dev.buf = [] ++ 0 :: List.replicate (CDEV_BUF_SIZE - 1) 0 := by
    rw [hz]; rfl
  rw [write_parse_plain parse dev [] _ 0 off hb (by rw [hz]; exact length_zero_buf)
    (by simp) (by simp), with_zero_buf dev hz]

/-- A newline-free write at the start of the cleared buffer hands its own C
string to the interpreter, provided a terminator is left in the buffer. -/
theorem write_zero_start_plain (parse : List Nat → Int) (dev : satan_cdev) (data : List Nat)
    (hz : dev.buf = zero_buf) (hfit : data.length ≤ CDEV_BUF_SIZE)
    (hn : NEWLINE ∉ data) (hnul : data.length < CDEV_BUF_SIZE ∨ 0 ∈ data) :
    satan_cdev_write parse dev data data.length 0
      = .ok { ret := data.length, offset := data.length, dev := dev,
              dispatched := some (c_string data) } := by
  have hl : dev.buf.length = CDEV_BUF_SIZE := by rw [hz]; exact length_zero_buf
  have happ := write_applied parse dev data 0 (le_refl 0) (by unfold CDEV_BUF_SIZE; omega)
    (by omega) hl
  simp only [Int.toNat_zero, zero_add] at happ
  rw [happ, hz]
  have hlen : (overlay zero_buf 0 data).length = CDEV_BUF_SIZE := by
    rw [overlay_length _ _ _ (by rw [length_zero_buf]; omega), length_zero_buf]
  by_cases h0 : 0 ∈ data
  · obtain ⟨body, rest, hd, hb⟩ := List.eq_append_cons_of_mem h0
    subst hd
    have hov : overlay zero_buf 0 (body ++ 0 :: rest)
        = body ++ 0 :: (rest ++ List.drop (body ++ 0 :: rest).length zero_buf) := by
      unfold overlay
      rw [List.take_zero, List.nil_append, Nat.zero_add]
      simp
    have hnb : NEWLINE ∉ body := fun h => hn (List.mem_append_left _ h)
    rw [write_parse_plain parse _ body _ _ _ hov hlen hb hnb,
      c_string_append_nul body rest hb]
    cases dev
    simp only at hz
    subst hz
    rfl
  · have hlt : data.length < CDEV_BUF_SIZE := hnul.resolve_right h0
    rw [write_parse_plain parse _ data _ _ _ (overlay_zero_start data hlt) hlen h0 hn,
      c_string_of_no_nul data h0]
    cases dev
    simp only at hz
    subst hz
    rfl

theorem exists_last_newline (data : List Nat) (h : NEWLINE ∈ data) :
    ∃ pre post, data = pre ++ NEWLINE :: post ∧ NEWLINE ∉ post := by
  obtain ⟨as, bs, he, hn⟩ := List.eq_append_cons_of_mem (List.mem_reverse.2 h)
  refine ⟨bs.reverse, as.reverse, ?_, by simpa using hn⟩
  have := congrArg List.reverse he
  simpa using this

/-- A write at the start of the cleared buffer that carries a newline and no
terminator, and leaves room for one, hands the text before its last newline
to the interpreter. -/
theorem write_zero_start_newline (parse : List Nat → Int) (dev : satan_cdev)
    (pre post : List Nat) (hz : dev.buf = zero_buf)
    (hlen : (pre ++ NEWLINE :: post).length < CDEV_BUF_SIZE)
    (h0 : 0 ∉ pre) (h0' : 0 ∉ post) (hn : NEWLINE ∉ post) :
    satan_cdev_write parse dev (pre ++ NEWLINE :: post) (pre ++ NEWLINE :: post).length 0
      = .ok { ret := (pre ++ NEWLINE :: post).length,
              offset := (pre ++ NEWLINE :: post).length,
              dev := { dev with buf := zero_buf }, dispatched := some pre } := by
  have hl : dev.buf.length = CDEV_BUF_SIZE := by rw [hz]; exact length_zero_buf
  have happ := write_applied parse dev (pre ++ NEWLINE :: post) 0 (le_refl 0)
    (by unfold CDEV_BUF_SIZE; omega) (by omega) hl
  simp only [Int.toNat_zero, zero_add] at happ
  rw [happ, hz]
  have hlen' : (overlay zero_buf 0 (pre ++ NEWLINE :: post)).length = CDEV_BUF_SIZE := by
    rw [overlay_length _ _ _ (by rw [length_zero_buf]; omega), length_zero_buf]
  have hov : overlay zero_buf 0 (pre ++ NEWLINE :: post)
      = pre ++ NEWLINE :: (post ++ 0 ::
          List.replicate (CDEV_BUF_SIZE - 1 - (pre ++ NEWLINE :: post).length) 0) := by
    rw [overlay_zero_start _ hlen]
    simp
  rw [write_parse_newline parse _ pre post _ _ _ hov hlen' h0 h0' hn]

/-! ## Writes without a newline -/

/-- C1, as the code has it: a write that is applied to the buffer
(`0 ≤ offset < C`, `len(data) ≤ C - offset`, copy-in succeeds) and after which
the buffer holds no newline byte but still holds a terminator returns
`len(data)`, advances the offset by it, calls the command interpreter once, with
the C string of the buffer as it stands after the copy, and leaves all 128
bytes zero. -/
theorem write_without_newline (parse : List Nat → Int) (dev : satan_cdev) (data : List Nat)
    (off : Int) (h0 : 0 ≤ off) (h1 : off < CDEV_BUF_SIZE)
    (hfit : (data.length : Int) ≤ CDEV_BUF_SIZE - off)
    (hl : dev.buf.length = CDEV_BUF_SIZE)
    (hn : NEWLINE ∉ overlay dev.buf off.toNat data)
    (hz : 0 ∈ overlay dev.buf off.toNat data) :
    satan_cdev_write parse dev data data.length off
      = .ok { ret := data.length, offset := off + data.length,
              dev := { dev with buf := zero_buf },
              dispatched := some (c_string (overlay dev.buf off.toNat data)) } := by
  rw [write_applied parse dev data off h0 h1 hfit hl]
  obtain ⟨body, rest, hd, hb⟩ := List.eq_append_cons_of_mem hz
  have hnb : NEWLINE ∉ body := fun h => hn (by rw [hd]; exact List.mem_append_left _ h)
  have hlen : (overlay dev.buf off.toNat data).length = CDEV_BUF_SIZE := by
    rw [overlay_length _ _ _ (by rw [hl]; omega), hl]
  rw [write_parse_plain parse { dev with buf := overlay dev.buf off.toNat data } body rest
    _ _ hd hlen hb hnb, hd, c_string_append_nul body rest hb]

/-- Witness of `write_without_newline`: `"help"` written at offset 0 of the
constructed device. -/
theorem write_without_newline_witness :
    satan_cdev_write parse_ok constructed text_help text_help.length 0
      = .ok { ret := text_help.length, offset := 0 + text_help.length,
              dev := { constructed with buf := zero_buf },
              dispatched := some (c_string (overlay constructed.buf (0 : Int).toNat text_help)) } :=
  write_without_newline parse_ok constructed text_help 0 (by decide) (by decide) (by decide)
    (by decide) (by decide) (by decide)

/-- C1 fails on the code: `"help"` written at offset 0 of the constructed device
leaves no newline in the buffer, yet the interpreter is called with `"help"` and
the buffer does not keep the text. -/
theorem write_without_newline_counterexample :
    NEWLINE ∉ overlay constructed.buf 0 text_help
    ∧ satan_cdev_write parse_ok constructed text_help 4 0
        = .ok { ret := 4, offset := 4, dev := constructed, dispatched := some text_help }
    ∧ some text_help ≠ (none : Option (List Nat))
    ∧ constructed.buf ≠ overlay constructed.buf 0 text_help := by
  decide

/-! ## Last-newline truncation -/

/-- C3: data of length below `C` without a terminator byte whose last newline
splits it into `pre ++ "\n" ++ post`, written at offset 0 into the all-zero
buffer, is dispatched once, with payload `pre` (the bytes before the last
newline), and the 128 bytes of the buffer are zero afterwards. -/
theorem last_newline_truncation (parse : List Nat → Int) (dev : satan_cdev)
    (data pre post : List Nat) (hz : dev.buf = zero_buf)
    (hlen : data.length < CDEV_BUF_SIZE) (h0 : 0 ∉ data)
    (hd : data = pre ++ NEWLINE :: post) (hn : NEWLINE ∉ post) :
    satan_cdev_write parse dev data data.length 0
      = .ok { ret := data.length, offset := data.length,
              dev := { dev with buf := zero_buf }, dispatched := some pre } := by
  subst hd
  have hpre : 0 ∉ pre := fun h => h0 (List.mem_append_left _ h)
  have hpost : 0 ∉ post := fun h =>
    h0 (List.mem_append_right _ (List.mem_cons_of_mem _ h))
  exact write_zero_start_newline parse dev pre post hz hlen hpre hpost hn

/-- Witness of `last_newline_truncation`: `"cmdA\ncmdB\n"` is dispatched as
`"cmdA\ncmdB"`. -/
theorem last_newline_truncation_witness :
    satan_cdev_write parse_ok constructed text_two_lines text_two_lines.length 0
      = .ok { ret := text_two_lines.length, offset := text_two_lines.length,
              dev := { constructed with buf := zero_buf },
              dispatched := some [99, 109, 100, 65, 10, 99, 109, 100, 66] } :=
  last_newline_truncation parse_ok constructed text_two_lines
    [99, 109, 100, 65, 10, 99, 109, 100, 66] [] rfl (by decide) (by decide) rfl (by decide)

/-! ## A command split over two writes -/

theorem write_all_cons_ok (parse : List Nat → Int) (dev : satan_cdev) (off : Int)
    (d : List Nat) (more : List (List Nat)) (r : write_result)
    (h : satan_cdev_write parse dev d d.length off = .ok r) :
    write_all parse dev off (d :: more)
      = match write_all parse r.dev r.offset more with
        | .error e => .error e
        | .ok rs => .ok (r :: rs) := by
  simp only [write_all, h]

theorem write_all_pair (parse : List Nat → Int) (dev : satan_cdev) (off : Int)
    (a b : List Nat) (r1 r2 : write_result)
    (h1 : satan_cdev_write parse dev a a.length off = .ok r1)
    (h2 : satan_cdev_write parse r1.dev b b.length r1.offset = .ok r2) :
    write_all parse dev off [a, b] = .ok [r1, r2] := by
  rw [write_all_cons_ok parse dev off a [b] r1 h1,
    write_all_cons_ok parse r1.dev r1.offset b [] r2 h2]
  simp only [write_all]

theorem prefix_of_split (s a b : List Nat) (c : Nat) (h : a ++ b = s ++ [c]) (hb : b ≠ []) :
    a = s.take a.length := by
  have hlen : a.length + b.length = s.length + 1 := by
    have := congrArg List.length h
    simpa using this
  have hbpos : 0 < b.length := List.length_pos.2 hb
  have hle : a.length ≤ s.length := by omega
  have := congrArg (List.take a.length) h
  rw [List.take_left, List.take_append_of_le_length hle] at this
  exact this

/-- C2, as the code has it. The scenario: from the constructed device, `"help"`
written at offset 0 returns 4 with offset 4 and is dispatched at once as
`"help"`; `"\n"` written at offset 4 returns 1 with offset 5 and dispatches the
empty string; the buffer is all zero after either call and a read of 128 bytes
at offset 0 returns 128 zero bytes. In general, for newline-free, terminator-free
`s` with `len(s) + 1 ≤ C` and every split `a ++ b = s ++ "\n"` written as two
consecutive writes from offset 0 into the all-zero buffer: with `a` and `b`
non-empty the payloads are `a` and the empty string; with `a` empty they are
the empty string and `s`, with `b` empty `s` and the empty string (the last
two for `len(s) + 1 < C`). -/
theorem split_command_dispatch (parse : List Nat → Int) :
    write_all parse constructed 0 [text_help, [NEWLINE]]
        = .ok [{ ret := 4, offset := 4, dev := constructed, dispatched := some text_help },
               { ret := 1, offset := 5, dev := constructed, dispatched := some [] }]
    ∧ satan_cdev_read constructed 128 128 0
        = .ok { ret := 128, offset := 128, user := zero_buf, dev := constructed }
    ∧ (∀ (dev : satan_cdev) (s a b : List Nat), dev.buf = zero_buf →
        NEWLINE ∉ s → 0 ∉ s →
        s.length + 1 ≤ CDEV_BUF_SIZE → a ++ b = s ++ [NEWLINE] → a ≠ [] → b ≠ [] →
        write_all parse dev 0 [a, b]
          = .ok [{ ret := a.length, offset := a.length, dev := dev, dispatched := some a },
                 { ret := b.length, offset := a.length + b.length, dev := dev,
                   dispatched := some [] }])
    ∧ (∀ (dev : satan_cdev) (s : List Nat), dev.buf = zero_buf → NEWLINE ∉ s → 0 ∉ s →
        s.length + 1 < CDEV_BUF_SIZE →
        write_all parse dev 0 [[], s ++ [NEWLINE]]
          = .ok [{ ret := 0, offset := 0, dev := dev, dispatched := some [] },
                 { ret := s.length + 1, offset := s.length + 1, dev := dev,
                   dispatched := some s }]
        ∧ write_all parse dev 0 [s ++ [NEWLINE], []]
          = .ok [{ ret := s.length + 1, offset := s.length + 1, dev := dev,
                   dispatched := some s },
                 { ret := 0, offset := s.length + 1, dev := dev,
                   dispatched := some [] }]) := by
  have general : ∀ (dev : satan_cdev) (s a b : List Nat), dev.buf = zero_buf →
      NEWLINE ∉ s → 0 ∉ s → s.length + 1 ≤ CDEV_BUF_SIZE → a ++ b = s ++ [NEWLINE] →
      a ≠ [] → b ≠ [] →
      write_all parse dev 0 [a, b]
        = .ok [{ ret := a.length, offset := a.length, dev := dev, dispatched := some a },
               { ret := b.length, offset := a.length + b.length, dev := dev,
                 dispatched := some [] }] := by
    intro dev s a b hz hn h0 hlen hsplit ha hb
    have htake := prefix_of_split s a b NEWLINE hsplit hb
    have hsum : a.length + b.length = s.length + 1 := by
      have := congrArg List.length hsplit
      simpa using this
    have hapos : 0 < a.length := List.length_pos.2 ha
    have hbpos : 0 < b.length := List.length_pos.2 hb
    have ha0 : 0 ∉ a := fun h => h0 (List.mem_of_mem_take (htake ▸ h))
    have han : NEWLINE ∉ a := fun h => hn (List.mem_of_mem_take (htake ▸ h))
    have w1 := write_zero_start_plain parse dev a hz (by omega) han (Or.inl (by omega))
    rw [c_string_of_no_nul a ha0] at w1
    have w2 := write_zero_later parse dev b a.length hz (by omega)
      (by unfold CDEV_BUF_SIZE at *; omega) (by unfold CDEV_BUF_SIZE at *; omega)
    exact write_all_pair parse dev 0 a b _ _ w1 w2
  refine ⟨?_, by decide, general, ?_⟩
  · exact general constructed text_help text_help [NEWLINE] rfl (by decide) (by decide)
      (by decide) rfl (by decide) (by decide)
  · intro dev s hz hn h0 hlen
    have hs : s ++ [NEWLINE] = s ++ NEWLINE :: [] := rfl
    have hl : (s ++ [NEWLINE]).length = s.length + 1 := by simp
    have wnl := write_zero_start_newline parse dev s [] hz (by rw [← hs, hl]; exact hlen) h0
      (by simp) (by simp)
    rw [with_zero_buf dev hz, ← hs, hl] at wnl
    constructor
    · have w1 := write_zero_start_plain parse dev [] hz (by simp) (by simp)
        (Or.inl (by unfold CDEV_BUF_SIZE; simp))
      have := write_all_pair parse dev 0 [] (s ++ [NEWLINE]) _ _ w1
        (by simpa [hl] using wnl)
      simpa [c_string, hl] using this
    · have w2 := write_zero_later parse dev [] (s.length + 1 : Nat) hz (by omega)
        (by unfold CDEV_BUF_SIZE at *; omega) (by unfold CDEV_BUF_SIZE at *; simp; omega)
      have := write_all_pair parse dev 0 (s ++ [NEWLINE]) [] _ _ (by simpa [hl] using wnl)
        (by simpa using w2)
      simpa [hl] using this

/-- Witness of `split_command_dispatch`: `"help\n"` split into `"he"` and
`"lp\n"`. -/
theorem split_command_dispatch_witness :
    write_all parse_ok constructed 0 [[104, 101], [108, 112, 10]]
      = .ok [{ ret := 2, offset := 2, dev := constructed, dispatched := some [104, 101] },
             { ret := 3, offset := 2 + 3, dev := constructed, dispatched := some [] }] :=
  (split_command_dispatch parse_ok).2.2.1 constructed text_help [104, 101] [108, 112, 10]
    rfl (by decide) (by decide) (by decide) rfl (by decide) (by decide)

/-- C2 fails on the code: in the scenario the first write already dispatches
`"help"` and the write of the newline dispatches the empty string, so the
payloads are `"help"` and the empty string rather than `"help"` alone. -/
theorem split_command_counterexample :
    write_all parse_ok constructed 0 [text_help, [NEWLINE]]
        = .ok [{ ret := 4, offset := 4, dev := constructed, dispatched := some text_help },
               { ret := 1, offset := 5, dev := constructed, dispatched := some [] }]
    ∧ Except.map payloads (write_all parse_ok constructed 0 [text_help, [NEWLINE]])
        = .ok [text_help, []]
    ∧ Except.map payloads (write_all parse_ok constructed 0 [text_help, [NEWLINE]])
        ≠ .ok [text_help] := by
  decide

/-! ## Capacity -/

theorem write_no_space (parse : List Nat → Int) (dev : satan_cdev) (user : List Nat)
    (len : Nat) (off : Int) (h0 : 0 ≤ off) (h1 : off < CDEV_BUF_SIZE)
    (hbig : (CDEV_BUF_SIZE : Int) - off < len) :
    satan_cdev_write parse dev user len off
      = .ok { ret := -ENOSPC, offset := off, dev := dev, dispatched := none } := by
  unfold satan_cdev_write
  have hge : ¬ ((CDEV_BUF_SIZE : Int) ≤ off) := by omega
  have hsp : size_t_sub CDEV_BUF_SIZE (to_size_t off) < len := by
    unfold size_t_sub to_size_t CDEV_BUF_SIZE at *
    omega
  rw [if_neg hge, if_pos hsp]

theorem write_zero_any (parse : List Nat → Int) (dev : satan_cdev) (w : List Nat) (n : Nat)
    (hz : dev.buf = zero_buf) (hfit : n + w.length ≤ CDEV_BUF_SIZE)
    (hn : NEWLINE ∉ w) (hnul : w.length < CDEV_BUF_SIZE ∨ 0 ∈ w) :
    satan_cdev_write parse dev w w.length n
      = .ok { ret := w.length, offset := ((n + w.length : Nat) : Int), dev := dev,
              dispatched := some (if n = 0 then c_string w else []) } := by
  rcases Nat.eq_zero_or_pos n with h | h
  · subst h
    have := write_zero_start_plain parse dev w hz (by omega) hn hnul
    simpa using this
  · by_cases hfull : n < CDEV_BUF_SIZE
    · have := write_zero_later parse dev w n hz (by omega) (by omega) (by omega)
      have hne : n ≠ 0 := by omega
      simpa [hne] using this
    · have hw : w = [] := List.length_eq_zero.1 (by omega)
      subst hw
      have := write_zero_full parse dev [] 0 n hz (by omega)
      have hne : n ≠ 0 := by omega
      simpa [hne] using this

theorem write_all_zero (parse : List Nat → Int) (dev : satan_cdev) (ws : List (List Nat))
    (n : Nat) (hz : dev.buf = zero_buf)
    (hsum : n + (ws.map List.length).sum ≤ CDEV_BUF_SIZE)
    (hnl : ∀ w ∈ ws, NEWLINE ∉ w)
    (hnul : ∀ w ∈ ws, w.length < CDEV_BUF_SIZE ∨ 0 ∈ w) :
    ∃ rs : List write_result, write_all parse dev n ws = .ok rs ∧ rs.length = ws.length ∧
      ∀ (k : Nat) (r : write_result) (w : List Nat), rs[k]? = some r → ws[k]? = some w →
        r = { ret := w.length,
              offset := ((n + ((ws.take (k + 1)).map List.length).sum : Nat) : Int),
              dev := dev,
              dispatched := some (if n + ((ws.take k).map List.length).sum = 0
                then c_string w else []) } := by
  induction ws generalizing n with
  | nil => exact ⟨[], rfl, rfl, by intro k r w h; simp at h⟩
  | cons w0 more ih =>
    simp only [List.map_cons, List.sum_cons] at hsum
    have hstep := write_zero_any parse dev w0 n hz (by omega)
      (hnl w0 (List.mem_cons_self _ _)) (hnul w0 (List.mem_cons_self _ _))
    obtain ⟨rs, hrs, hlen, hall⟩ := ih (n + w0.length) (by omega)
      (fun w hw => hnl w (List.mem_cons_of_mem _ hw))
      (fun w hw => hnul w (List.mem_cons_of_mem _ hw))
    refine ⟨{ ret := w0.length, offset := ((n + w0.length : Nat) : Int), dev := dev,
              dispatched := some (if n = 0 then c_string w0 else []) } :: rs,
      ?_, by simp [hlen], ?_⟩
    · rw [write_all_cons_ok parse dev n w0 more _ hstep]
      simp only [hrs]
    · intro k r w hr hw
      cases k with
      | zero =>
        simp only [List.getElem?_cons_zero, Option.some.injEq] at hr hw
        subst hr hw
        simp
      | succ k =>
        simp only [List.getElem?_cons_succ] at hr hw
        have := hall k r w hr hw
        rw [this]
        simp only [List.take_succ_cons, List.map_cons, List.sum_cons, Nat.add_assoc]

/-- C4, as the code has it. From the all-zero buffer, for every sequence of
newline-free writes issued from offset 0, each at the offset left by the
previous one, with cumulative byte count at most `C = 128` and none of them
filling all 128 bytes with non-terminator bytes: every write returns its own
length, leaves the offset at the cumulative count and the buffer all zero, and
dispatches its own text (its C string when it started at offset 0, the empty
string otherwise). A following write of more bytes than remain fails with
`-ENOSPC`, buffer and offset unchanged, as long as the cumulative count is below
`C`; once exactly `C` bytes have been written, every further write returns 0
instead, with the offset unchanged and the empty string dispatched. -/
theorem capacity_sequence (parse : List Nat → Int) (dev : satan_cdev) (ws : List (List Nat))
    (hz : dev.buf = zero_buf)
    (hnl : ∀ w ∈ ws, NEWLINE ∉ w)
    (hsum : (ws.map List.length).sum ≤ CDEV_BUF_SIZE)
    (hnul : ∀ w ∈ ws, w.length < CDEV_BUF_SIZE ∨ 0 ∈ w) :
    (∃ rs : List write_result, write_all parse dev 0 ws = .ok rs ∧ rs.length = ws.length ∧
      ∀ (k : Nat) (r : write_result) (w : List Nat), rs[k]? = some r → ws[k]? = some w →
        r = { ret := w.length,
              offset := ((((ws.take (k + 1)).map List.length).sum : Nat) : Int),
              dev := dev,
              dispatched := some (if ((ws.take k).map List.length).sum = 0
                then c_string w else []) })
    ∧ (∀ (user : List Nat) (len : Nat), (ws.map List.length).sum < CDEV_BUF_SIZE →
        CDEV_BUF_SIZE - (ws.map List.length).sum < len →
        satan_cdev_write parse dev user len (((ws.map List.length).sum : Nat) : Int)
          = .ok { ret := -ENOSPC, offset := (((ws.map List.length).sum : Nat) : Int),
                  dev := dev, dispatched := none })
    ∧ (∀ (user : List Nat) (len : Nat), (ws.map List.length).sum = CDEV_BUF_SIZE →
        satan_cdev_write parse dev user len (((ws.map List.length).sum : Nat) : Int)
          = .ok { ret := 0, offset := (((ws.map List.length).sum : Nat) : Int),
                  dev := dev, dispatched := some [] }) := by
  refine ⟨?_, ?_, ?_⟩
  · have := write_all_zero parse dev ws 0 hz (by omega) hnl hnul
    simpa using this
  · intro user len hlt hbig
    exact write_no_space parse dev user len _ (by omega) (by omega) (by omega)
  · intro user len hfull
    exact write_zero_full parse dev user len _ hz (by omega)

/-- Witness of `capacity_sequence`: after `"help"` twice (8 bytes), a write of
125 bytes does not fit. -/
theorem capacity_sequence_witness :
    satan_cdev_write parse_ok constructed [] 125
        (((List.map List.length [text_help, text_help]).sum : Nat) : Int)
      = .ok { ret := -ENOSPC,
              offset := (((List.map List.length [text_help, text_help]).sum : Nat) : Int),
              dev := constructed, dispatched := none } :=
  (capacity_sequence parse_ok constructed [text_help, text_help] rfl (by decide) (by decide)
    (by decide)).2.1 [] 125 (by decide) (by decide)

/-- C4 fails on the code: after two newline-free writes of 64 bytes the
cumulative count is exactly 128, and the following write of one byte returns 0,
not `-ENOSPC`. -/
theorem capacity_sequence_counterexample :
    Except.map (fun rs => rs.map (fun r => (r.ret, r.offset, r.dev)))
        (write_all parse_ok constructed 0 [List.replicate 64 97, List.replicate 64 97])
      = .ok [(64, 64, constructed), (64, 128, constructed)]
    ∧ satan_cdev_write parse_ok constructed [97] 1 128
      = .ok { ret := 0, offset := 128, dev := constructed, dispatched := some [] }
    ∧ (0 : Int) ≠ -ENOSPC := by
  decide

/-! ## Results of the write path, whatever the data -/

theorem write_parse_fields (parse : List Nat → Int) (dev : satan_cdev) (ret off : Int)
    (r : write_result) (h : satan_cdev_write_parse parse dev ret off = .ok r) :
    r.ret = ret ∧ r.offset = off ∧ r.dev.semaphore = dev.semaphore := by
  unfold satan_cdev_write_parse at h
  cases hs : strrchr dev.buf NEWLINE with
  | none => rw [hs] at h; cases h
  | some newline =>
    rw [hs] at h
    simp only [Except.ok.injEq] at h
    subst h
    exact ⟨rfl, rfl, rfl⟩

/-- Every defined result of `satan_cdev_write` is one of: the framing block
entered with `ret = 0` at an offset of at least `C`; `-ENOSPC` with nothing
changed; `-EFAULT` with the offset unchanged; or the framing block entered with
`ret = len` and the offset advanced by `len ≤ C - offset`. -/
theorem write_cases (parse : List Nat → Int) (dev : satan_cdev) (user : List Nat) (len : Nat)
    (off : Int) (h0 : 0 ≤ off) (r : write_result)
    (h : satan_cdev_write parse dev user len off = .ok r) :
    ((CDEV_BUF_SIZE : Int) ≤ off ∧ r.ret = 0 ∧ r.offset = off)
    ∨ (off < CDEV_BUF_SIZE ∧ (CDEV_BUF_SIZE : Int) - off < len
        ∧ r = { ret := -ENOSPC, offset := off, dev := dev, dispatched := none })
    ∨ (off < CDEV_BUF_SIZE ∧ (len : Int) ≤ CDEV_BUF_SIZE - off
        ∧ r.ret = -EFAULT ∧ r.offset = off ∧ r.dispatched = none)
    ∨ (off < CDEV_BUF_SIZE ∧ (len : Int) ≤ CDEV_BUF_SIZE - off
        ∧ r.ret = len ∧ r.offset = off + len) := by
  unfold satan_cdev_write at h
  by_cases hge : (CDEV_BUF_SIZE : Int) ≤ off
  · rw [if_pos hge] at h
    obtain ⟨hr, ho, _⟩ := write_parse_fields parse dev 0 off r h
    exact Or.inl ⟨hge, hr, ho⟩
  · rw [if_neg hge] at h
    have hlt : off < CDEV_BUF_SIZE := by omega
    by_cases hsp : size_t_sub CDEV_BUF_SIZE (to_size_t off) < len
    · rw [if_pos hsp] at h
      simp only [Except.ok.injEq] at h
      refine Or.inr (Or.inl ⟨hlt, ?_, h.symm⟩)
      unfold size_t_sub to_size_t CDEV_BUF_SIZE at *
      omega
    · rw [if_neg hsp] at h
      have hfit : (len : Int) ≤ CDEV_BUF_SIZE - off := by
        unfold size_t_sub to_size_t CDEV_BUF_SIZE at *
        omega
      cases hc : copy_from_user dev.buf off user len with
      | none => rw [hc] at h; cases h
      | some res =>
        obtain ⟨buf', uncopied⟩ := res
        rw [hc] at h
        by_cases hu : uncopied ≠ 0
        · simp only [hu, ne_eq, not_false_eq_true, if_true, Except.ok.injEq] at h
          subst h
          exact Or.inr (Or.inr (Or.inl ⟨hlt, hfit, rfl, rfl, rfl⟩))
        · simp only [hu, if_false] at h
          obtain ⟨hr, ho, _⟩ := write_parse_fields parse _ _ _ r h
          have hret : to_int (len : Int) = len := by
            unfold to_int; unfold CDEV_BUF_SIZE at *; omega
          have hoff : to_loff_t (off + len) = off + len := by
            unfold to_loff_t; unfold CDEV_BUF_SIZE at *; omega
          rw [hret] at hr ho
          rw [hoff] at ho
          exact Or.inr (Or.inr (Or.inr ⟨hlt, hfit, hr, ho⟩))

/-! ## Insufficient space -/

/-- C5: for `0 ≤ offset < C` and a length above `C - offset`, `satan_cdev_write`
returns `-ENOSPC`, stores nothing, leaves the buffer and the offset unchanged
and does not call the interpreter; and, the offset being a file position
(`0 ≤ offset`), `-ENOSPC` is returned only for such inputs. -/
theorem no_space (parse : List Nat → Int) (dev : satan_cdev) (user : List Nat) (len : Nat)
    (off : Int) (h0 : 0 ≤ off) :
    (off < CDEV_BUF_SIZE → (CDEV_BUF_SIZE : Int) - off < len →
      satan_cdev_write parse dev user len off
        = .ok { ret := -ENOSPC, offset := off, dev := dev, dispatched := none })
    ∧ (∀ r : write_result, satan_cdev_write parse dev user len off = .ok r →
        r.ret = -ENOSPC → off < CDEV_BUF_SIZE ∧ (CDEV_BUF_SIZE : Int) - off < len) := by
  refine ⟨fun h1 hbig => write_no_space parse dev user len off h0 h1 hbig, ?_⟩
  intro r h hret
  rcases write_cases parse dev user len off h0 r h with
    ⟨_, hr, _⟩ | ⟨hlt, hbig, _⟩ | ⟨_, _, hr, _⟩ | ⟨_, _, hr, _⟩
  · rw [hr] at hret; exact absurd hret (by decide)
  · exact ⟨hlt, hbig⟩
  · rw [hr] at hret; exact absurd hret (by decide)
  · rw [hr] at hret
    unfold ENOSPC at hret
    omega

/-- Witness of `no_space`: 5 bytes do not fit at offset 124. -/
theorem no_space_witness :
    satan_cdev_write parse_ok constructed text_two_lines 5 124
      = .ok { ret := -ENOSPC, offset := 124, dev := constructed, dispatched := none } :=
  (no_space parse_ok constructed text_two_lines 5 124 (by decide)).1 (by decide) (by decide)

/-! ## The read path -/

/-- A read inside the buffer whose destination accepts the bytes. -/
theorem read_in_range (dev : satan_cdev) (writable len : Nat) (off : Int)
    (hl : dev.buf.length = CDEV_BUF_SIZE) (h0 : 0 ≤ off) (h1 : off < CDEV_BUF_SIZE)
    (hroom : min len (CDEV_BUF_SIZE - off.toNat) ≤ writable) :
    satan_cdev_read dev writable len off
      = .ok { ret := ((min len (CDEV_BUF_SIZE - off.toNat) : Nat) : Int),
              offset := off + ((min len (CDEV_BUF_SIZE - off.toNat) : Nat) : Int),
              user := (dev.buf.drop off.toNat).take (min len (CDEV_BUF_SIZE - off.toNat)),
              dev := dev } := by
  unfold satan_cdev_read
  have hge : ¬ ((CDEV_BUF_SIZE : Int) ≤ off) := by omega
  rw [if_neg hge]
  have hsub : size_t_sub CDEV_BUF_SIZE (to_size_t off) = CDEV_BUF_SIZE - off.toNat := by
    unfold size_t_sub to_size_t CDEV_BUF_SIZE at *
    omega
  have hret : to_int ((min len (CDEV_BUF_SIZE - off.toNat) : Nat) : Int)
      = ((min len (CDEV_BUF_SIZE - off.toNat) : Nat) : Int) := by
    unfold to_int; unfold CDEV_BUF_SIZE at *; omega
  have hsz : to_size_t ((min len (CDEV_BUF_SIZE - off.toNat) : Nat) : Int)
      = min len (CDEV_BUF_SIZE - off.toNat) := by
    unfold to_size_t; unfold CDEV_BUF_SIZE at *; omega
  have hoff : to_loff_t (off + ((min len (CDEV_BUF_SIZE - off.toNat) : Nat) : Int))
      = off + ((min len (CDEV_BUF_SIZE - off.toNat) : Nat) : Int) := by
    unfold to_loff_t; unfold CDEV_BUF_SIZE at *; omega
  simp only [hsub, hret, hsz, hoff]
  unfold copy_to_user
  by_cases hn : min len (CDEV_BUF_SIZE - off.toNat) = 0
  · simp [hn]
  · have hin : 0 ≤ off ∧ off + ((min len (CDEV_BUF_SIZE - off.toNat) : Nat) : Int)
        ≤ dev.buf.length := by
      rw [hl]; unfold CDEV_BUF_SIZE at *; omega
    have hm : min (min len (CDEV_BUF_SIZE - off.toNat)) writable
        = min len (CDEV_BUF_SIZE - off.toNat) := by omega
    simp only [hn, if_false, hin, and_self, if_true, hm, Nat.sub_self, ne_eq,
      not_true_eq_false]

/-- A read at or past the end of the buffer. -/
theorem read_at_end (dev : satan_cdev) (writable len : Nat) (off : Int)
    (h : (CDEV_BUF_SIZE : Int) ≤ off) :
    satan_cdev_read dev writable len off
      = .ok { ret := 0, offset := off, user := [], dev := dev } := by
  unfold satan_cdev_read
  rw [if_pos h]

/-- C6: for `0 ≤ o < C`, every requested length `L` and every content of the
128-byte buffer, when the copy-out succeeds (the destination accepts the bytes)
`satan_cdev_read` returns exactly `min(L, C - o)`, delivers the bytes
`buffer[o : o + returned]` (that many of them), moves the offset to
`o + returned` and leaves the device unchanged. -/
theorem read_bound (dev : satan_cdev) (writable len : Nat) (off : Int)
    (hl : dev.buf.length = CDEV_BUF_SIZE) (h0 : 0 ≤ off) (h1 : off < CDEV_BUF_SIZE)
    (hroom : min len (CDEV_BUF_SIZE - off.toNat) ≤ writable) :
    satan_cdev_read dev writable len off
      = .ok { ret := ((min len (CDEV_BUF_SIZE - off.toNat) : Nat) : Int),
              offset := off + ((min len (CDEV_BUF_SIZE - off.toNat) : Nat) : Int),
              user := (dev.buf.drop off.toNat).take (min len (CDEV_BUF_SIZE - off.toNat)),
              dev := dev }
    ∧ ((dev.buf.drop off.toNat).take (min len (CDEV_BUF_SIZE - off.toNat))).length
        = min len (CDEV_BUF_SIZE - off.toNat) := by
  constructor
  · exact read_in_range dev writable len off hl h0 h1 hroom
  · rw [List.length_take, List.length_drop, hl]
    omega

/-- Witness of `read_bound`: 200 bytes requested at offset 100 of the
constructed device yield the 28 bytes that are left. -/
theorem read_bound_witness :
    satan_cdev_read constructed 200 200 100
      = .ok { ret := ((min 200 (CDEV_BUF_SIZE - (100 : Int).toNat) : Nat) : Int),
              offset := 100 + ((min 200 (CDEV_BUF_SIZE - (100 : Int).toNat) : Nat) : Int),
              user := (constructed.buf.drop (100 : Int).toNat).take
                (min 200 (CDEV_BUF_SIZE - (100 : Int).toNat)),
              dev := constructed } :=
  (read_bound constructed 200 200 100 (by decide) (by decide) (by decide) (by decide)).1

/-- C7: for every offset of at least `C = 128`, every requested length and
every buffer content, `satan_cdev_read` returns 0, copies no bytes and leaves
the offset and the device unchanged. -/
theorem read_end_of_data (dev : satan_cdev) (writable len : Nat) (off : Int)
    (h : (CDEV_BUF_SIZE : Int) ≤ off) :
    satan_cdev_read dev writable len off
      = .ok { ret := 0, offset := off, user := [], dev := dev } :=
  read_at_end dev writable len off h

/-- Witness of `read_end_of_data`: a read at offset 128. -/
theorem read_end_of_data_witness :
    satan_cdev_read constructed 16 16 128
      = .ok { ret := 0, offset := 128, user := [], dev := constructed } :=
  read_end_of_data constructed 16 16 128 (by decide)

/-! ## Writes at or past the capacity -/

/-- C8: for every offset of at least `C`, `satan_cdev_write` goes straight to
the framing block with `ret = 0`: two calls that differ only in the data give
the same result; every result has `ret = 0` and the offset unchanged; and when
the 128-byte buffer holds a terminator the call returns 0, leaves the offset
unchanged, dispatches once and clears the buffer. -/
theorem write_past_capacity (parse : List Nat → Int) (dev : satan_cdev)
    (user1 user2 : List Nat) (len1 len2 : Nat) (off : Int)
    (h : (CDEV_BUF_SIZE : Int) ≤ off) :
    satan_cdev_write parse dev user1 len1 off = satan_cdev_write parse dev user2 len2 off
    ∧ satan_cdev_write parse dev user1 len1 off = satan_cdev_write_parse parse dev 0 off
    ∧ (∀ r : write_result, satan_cdev_write parse dev user1 len1 off = .ok r →
        r.ret = 0 ∧ r.offset = off)
    ∧ (dev.buf.length = CDEV_BUF_SIZE → 0 ∈ dev.buf →
        ∃ p, satan_cdev_write parse dev user1 len1 off
          = .ok { ret := 0, offset := off, dev := { dev with buf := zero_buf },
                  dispatched := some p }) := by
  have e1 : satan_cdev_write parse dev user1 len1 off
      = satan_cdev_write_parse parse dev 0 off := by
    unfold satan_cdev_write; rw [if_pos h]
  have e2 : satan_cdev_write parse dev user2 len2 off
      = satan_cdev_write_parse parse dev 0 off := by
    unfold satan_cdev_write; rw [if_pos h]
  refine ⟨e1.trans e2.symm, e1, ?_, ?_⟩
  · intro r hr
    rw [e1] at hr
    obtain ⟨h1, h2, _⟩ := write_parse_fields parse dev 0 off r hr
    exact ⟨h1, h2⟩
  · intro hl hz
    rw [e1]
    exact write_parse_ok parse dev 0 off hl hz

/-- Witness of `write_past_capacity`: two different writes at offset 128. -/
theorem write_past_capacity_witness :
    satan_cdev_write parse_ok constructed text_help 4 128
      = satan_cdev_write parse_ok constructed text_two_lines 10 128 :=
  (write_past_capacity parse_ok constructed text_help text_two_lines 4 10 128 (by decide)).1

/-! ## Exclusive access -/

theorem read_dev (dev : satan_cdev) (writable len : Nat) (off : Int) (r : read_result)
    (h : satan_cdev_read dev writable len off = .ok r) : r.dev = dev := by
  unfold satan_cdev_read at h
  split at h
  · simp only [Except.ok.injEq] at h
    subst h; rfl
  · dsimp only at h
    split at h
    · cases h
    · split at h <;>
      · simp only [Except.ok.injEq] at h
        subst h; rfl

theorem write_semaphore (parse : List Nat → Int) (dev : satan_cdev) (user : List Nat)
    (len : Nat) (off : Int) (r : write_result)
    (h : satan_cdev_write parse dev user len off = .ok r) :
    r.dev.semaphore = dev.semaphore := by
  unfold satan_cdev_write at h
  split at h
  · exact (write_parse_fields parse dev 0 off r h).2.2
  · split at h
    · simp only [Except.ok.injEq] at h
      subst h; rfl
    · split at h
      · cases h
      · split at h
        · simp only [Except.ok.injEq] at h
          subst h; rfl
        · exact (write_parse_fields parse _ _ _ r h).2.2

/-- The number of permits plus the number of sessions inside is preserved by
every completed call. -/
theorem step_permits (parse : List Nat → Int) (s s' : system) (c : call)
    (hinv : s.dev.semaphore + s.inside.length = 1) (h : step parse s c = some s') :
    s'.dev.semaphore + s'.inside.length = 1 := by
  cases c with
  | op_open sid interrupted =>
    simp only [step, satan_cdev_open, down_interruptible] at h
    by_cases hc : 0 < s.dev.semaphore
    · simp only [hc, if_true, ne_eq, not_true_eq_false, if_false, Option.some.injEq] at h
      subst h
      simp only [List.length_cons]
      omega
    · simp only [hc, if_false] at h
      cases interrupted with
      | false => simp at h
      | true =>
        simp only [if_true, EINTR] at h
        simp only [ne_eq, Option.some.injEq] at h
        norm_num at h
        subst h
        exact hinv
  | op_close sid =>
    simp only [step] at h
    by_cases hm : sid ∈ s.inside
    · simp only [hm, if_true, Option.some.injEq] at h
      subst h
      have hpos : 0 < s.inside.length := List.length_pos_of_mem hm
      simp only [satan_cdev_close, up, List.length_erase_of_mem hm]
      omega
    · simp [hm] at h
  | op_read sid writable len offset =>
    simp only [step] at h
    by_cases hm : sid ∈ s.inside
    · simp only [hm, if_true] at h
      cases hr : satan_cdev_read s.dev writable len offset with
      | error e => rw [hr] at h; cases h
      | ok r =>
        rw [hr] at h
        simp only [Option.some.injEq] at h
        subst h
        simp only [read_dev s.dev writable len offset r hr]
        exact hinv
    · simp [hm] at h
  | op_write sid user len offset =>
    simp only [step] at h
    by_cases hm : sid ∈ s.inside
    · simp only [hm, if_true] at h
      cases hr : satan_cdev_write parse s.dev user len offset with
      | error e => rw [hr] at h; cases h
      | ok r =>
        rw [hr] at h
        simp only [Option.some.injEq] at h
        subst h
        simp only [write_semaphore parse s.dev user len offset r hr]
        exact hinv
    · simp [hm] at h

theorem run_permits (parse : List Nat → Int) (cs : List call) (s s' : system)
    (hinv : s.dev.semaphore + s.inside.length = 1) (h : run parse s cs = some s') :
    s'.dev.semaphore + s'.inside.length = 1 := by
  induction cs generalizing s with
  | nil =>
    simp only [run, Option.some.injEq] at h
    subst h
    exact hinv
  | cons c cs ih =>
    simp only [run] at h
    cases hs : step parse s c with
    | none => rw [hs] at h; cases h
    | some t =>
      rw [hs] at h
      exact ih t (step_permits parse s t c hinv hs) h

theorem open_taken (dev : satan_cdev) (interrupted : Bool) (r : Int) (dev' : satan_cdev)
    (hs : dev.semaphore = 0) (h : satan_cdev_open dev interrupted = some (r, dev')) :
    r = -1 ∧ dev' = dev := by
  cases dev with
  | mk sem buf =>
    simp only at hs
    subst hs
    cases interrupted with
    | false => simp [satan_cdev_open, down_interruptible] at h
    | true =>
      simp only [satan_cdev_open, down_interruptible, EINTR] at h
      norm_num at h
      exact ⟨h.1.symm, h.2.symm⟩

theorem open_free (dev : satan_cdev) (interrupted : Bool) (hs : dev.semaphore = 1) :
    satan_cdev_open dev interrupted = some (0, { dev with semaphore := 0 }) := by
  simp [satan_cdev_open, down_interruptible, hs]

/-- C9: in every state reachable from the constructed channel (permit count 1,
nobody inside) by completed calls, where `satan_cdev_open` enters only by taking
a permit and `satan_cdev_close` is called only by a session that is inside: the
permit count is 0 or 1, permits plus sessions inside make 1, at most one session
is inside; while a session is inside an open can only fail, with the state
unchanged, so an open that returns 0 found nobody inside; and once the holder
has closed, the next open returns 0 and that session is the one inside. -/
theorem exclusivity (parse : List Nat → Int) (s : system) (h : reachable parse s) :
    (s.dev.semaphore = 0 ∨ s.dev.semaphore = 1)
    ∧ s.dev.semaphore + s.inside.length = 1
    ∧ s.inside.length ≤ 1
    ∧ (∀ (interrupted : Bool) (r : Int) (dev' : satan_cdev), s.inside ≠ [] →
        satan_cdev_open s.dev interrupted = some (r, dev') → r = -1 ∧ dev' = s.dev)
    ∧ (∀ (interrupted : Bool) (dev' : satan_cdev),
        satan_cdev_open s.dev interrupted = some (0, dev') → s.inside = [])
    ∧ (∀ (holder sid : Nat) (interrupted : Bool), holder ∈ s.inside →
        ∃ s1 s2, step parse s (.op_close holder) = some s1
          ∧ satan_cdev_open s1.dev interrupted = some (0, s2.dev)
          ∧ step parse s1 (.op_open sid interrupted) = some s2
          ∧ s2.inside = [sid]) := by
  obtain ⟨cs, hrun⟩ := h
  have hinv : s.dev.semaphore + s.inside.length = 1 :=
    run_permits parse cs system_init s (by decide) hrun
  have hbusy : s.inside ≠ [] → s.dev.semaphore = 0 := by
    intro hne
    have : 0 < s.inside.length := List.length_pos.2 hne
    omega
  refine ⟨by omega, hinv, by omega, ?_, ?_, ?_⟩
  · intro interrupted r dev' hne hopen
    exact open_taken s.dev interrupted r dev' (hbusy hne) hopen
  · intro interrupted dev' hopen
    by_contra hne
    have := (open_taken s.dev interrupted 0 dev' (hbusy hne) hopen).1
    omega
  · intro holder sid interrupted hmem
    have hpos : 0 < s.inside.length := List.length_pos_of_mem hmem
    have hone : s.inside.length = 1 := by omega
    have hsem : s.dev.semaphore = 0 := by omega
    have herase : s.inside.erase holder = [] := by
      apply List.length_eq_zero.1
      rw [List.length_erase_of_mem hmem, hone]
    refine ⟨{ dev := (satan_cdev_close s.dev).2, inside := [] },
      { dev := { s.dev with semaphore := 0 }, inside := [sid] }, ?_, ?_, ?_, rfl⟩
    · simp [step, hmem, herase]
    · simp [satan_cdev_open, down_interruptible, satan_cdev_close, up, hsem]
    · simp [step, satan_cdev_open, down_interruptible, satan_cdev_close, up, hsem]

/-- Witness of `exclusivity`: the state after session 1 has opened the device. -/
theorem exclusivity_witness :
    (({ dev := { semaphore := 0, buf := zero_buf }, inside := [1] } : system).dev.semaphore
        + ({ dev := { semaphore := 0, buf := zero_buf }, inside := [1] } : system).inside.length
      = 1)
    ∧ ({ dev := { semaphore := 0, buf := zero_buf }, inside := [1] } : system).inside.length
      ≤ 1 :=
  have h := exclusivity parse_ok
    { dev := { semaphore := 0, buf := zero_buf }, inside := [1] }
    ⟨[.op_open 1 false], by decide⟩
  ⟨h.2.1, h.2.2.1⟩

/-! ## The caller's offset -/

theorem read_fault (dev : satan_cdev) (writable len : Nat) (off : Int)
    (hl : dev.buf.length = CDEV_BUF_SIZE) (h0 : 0 ≤ off) (h1 : off < CDEV_BUF_SIZE)
    (hroom : writable < min len (CDEV_BUF_SIZE - off.toNat)) :
    satan_cdev_read dev writable len off
      = .ok { ret := -EFAULT, offset := off,
              user := (dev.buf.drop off.toNat).take writable, dev := dev } := by
  unfold satan_cdev_read
  have hge : ¬ ((CDEV_BUF_SIZE : Int) ≤ off) := by omega
  rw [if_neg hge]
  have hsub : size_t_sub CDEV_BUF_SIZE (to_size_t off) = CDEV_BUF_SIZE - off.toNat := by
    unfold size_t_sub to_size_t CDEV_BUF_SIZE at *
    omega
  have hret : to_int ((min len (CDEV_BUF_SIZE - off.toNat) : Nat) : Int)
      = ((min len (CDEV_BUF_SIZE - off.toNat) : Nat) : Int) := by
    unfold to_int; unfold CDEV_BUF_SIZE at *; omega
  have hsz : to_size_t ((min len (CDEV_BUF_SIZE - off.toNat) : Nat) : Int)
      = min len (CDEV_BUF_SIZE - off.toNat) := by
    unfold to_size_t; unfold CDEV_BUF_SIZE at *; omega
  simp only [hsub, hret, hsz]
  unfold copy_to_user
  have hn : ¬ (min len (CDEV_BUF_SIZE - off.toNat) = 0) := by omega
  have hin : 0 ≤ off ∧ off + ((min len (CDEV_BUF_SIZE - off.toNat) : Nat) : Int)
      ≤ dev.buf.length := by
    rw [hl]; unfold CDEV_BUF_SIZE at *; omega
  have hm : min (min len (CDEV_BUF_SIZE - off.toNat)) writable = writable := by omega
  have hu : min len (CDEV_BUF_SIZE - off.toNat) - writable ≠ 0 := by omega
  simp only [hn, if_false, hin, and_self, if_true, hm, hu, ne_eq, not_false_eq_true]

theorem write_user_take (parse : List Nat → Int) (dev : satan_cdev) (user : List Nat)
    (len : Nat) (off : Int) :
    satan_cdev_write parse dev user len off
      = satan_cdev_write parse dev (user.take len) len off := by
  unfold satan_cdev_write copy_from_user
  simp only [List.take_take, min_self]

theorem write_fault (parse : List Nat → Int) (dev : satan_cdev) (user : List Nat)
    (len : Nat) (off : Int) (hl : dev.buf.length = CDEV_BUF_SIZE)
    (h0 : 0 ≤ off) (h1 : off < CDEV_BUF_SIZE)
    (hfit : (len : Int) ≤ CDEV_BUF_SIZE - off) (hshort : user.length < len) :
    satan_cdev_write parse dev user len off
      = .ok { ret := -EFAULT, offset := off,
              dev := { dev with
                buf := overlay dev.buf off.toNat (user ++ List.replicate (len - user.length) 0) },
              dispatched := none } := by
  unfold satan_cdev_write
  have hge : ¬ ((CDEV_BUF_SIZE : Int) ≤ off) := by omega
  have hsp : ¬ (size_t_sub CDEV_BUF_SIZE (to_size_t off) < len) := by
    unfold size_t_sub to_size_t CDEV_BUF_SIZE at *
    omega
  rw [if_neg hge, if_neg hsp]
  unfold copy_from_user overlay
  have hn : ¬ (len = 0) := by omega
  have hin : 0 ≤ off ∧ off + (len : Int) ≤ dev.buf.length := by
    rw [hl]; omega
  have htake : user.take len = user := List.take_of_length_le (le_of_lt hshort)
  have hu : len - user.length ≠ 0 := by omega
  have hlen : (user ++ List.replicate (len - user.length) 0).length = len := by
    simp only [List.length_append, List.length_replicate]; omega
  simp only [hn, if_false, hin, and_self, if_true, htake, hu, ne_eq, not_false_eq_true,
    hlen]

/-- C10: if the caller's offset is within `0 ≤ offset ≤ C` before a call, it is
so after it. `satan_cdev_read` always returns, with the offset in range.
Every result of `satan_cdev_write` (bytes stored, nothing stored at capacity,
`-ENOSPC`, `-EFAULT`) has the offset in range, and the call has a result
whenever the buffer its newline scan runs over holds a terminator. A write
that would pass `C` is rejected with `-ENOSPC`, the offset unchanged. -/
theorem cursor_invariant (parse : List Nat → Int) (dev : satan_cdev) (user : List Nat)
    (writable len : Nat) (off : Int) (hl : dev.buf.length = CDEV_BUF_SIZE)
    (h0 : 0 ≤ off) (h1 : off ≤ CDEV_BUF_SIZE) :
    (∃ r : read_result, satan_cdev_read dev writable len off = .ok r
        ∧ 0 ≤ r.offset ∧ r.offset ≤ CDEV_BUF_SIZE)
    ∧ (∀ r : write_result, satan_cdev_write parse dev user len off = .ok r →
        0 ≤ r.offset ∧ r.offset ≤ CDEV_BUF_SIZE)
    ∧ (0 ∈ (if (CDEV_BUF_SIZE : Int) ≤ off then dev.buf
              else overlay dev.buf off.toNat (user.take len)) →
        ∃ r : write_result, satan_cdev_write parse dev user len off = .ok r)
    ∧ (off < CDEV_BUF_SIZE → (CDEV_BUF_SIZE : Int) - off < len →
        satan_cdev_write parse dev user len off
          = .ok { ret := -ENOSPC, offset := off, dev := dev, dispatched := none }) := by
  refine ⟨?_, ?_, ?_, fun hlt hbig => write_no_space parse dev user len off h0 hlt hbig⟩
  · by_cases hge : (CDEV_BUF_SIZE : Int) ≤ off
    · exact ⟨_, read_at_end dev writable len off hge, h0, h1⟩
    · have hlt : off < CDEV_BUF_SIZE := by omega
      by_cases hroom : min len (CDEV_BUF_SIZE - off.toNat) ≤ writable
      · refine ⟨_, read_in_range dev writable len off hl h0 hlt hroom, ?_, ?_⟩
        · show 0 ≤ off + ((min len (CDEV_BUF_SIZE - off.toNat) : Nat) : Int)
          omega
        · show off + ((min len (CDEV_BUF_SIZE - off.toNat) : Nat) : Int) ≤ CDEV_BUF_SIZE
          omega
      · exact ⟨_, read_fault dev writable len off hl h0 hlt (by omega), h0, h1⟩
  · intro r hr
    rcases write_cases parse dev user len off h0 r hr with
      ⟨_, _, ho⟩ | ⟨_, _, hreq⟩ | ⟨_, _, _, ho, _⟩ | ⟨_, hfit, _, ho⟩
    · rw [ho]; exact ⟨h0, h1⟩
    · rw [hreq]; exact ⟨h0, h1⟩
    · rw [ho]; exact ⟨h0, h1⟩
    · rw [ho]; constructor <;> omega
  · intro hz
    by_cases hge : (CDEV_BUF_SIZE : Int) ≤ off
    · rw [if_pos hge] at hz
      obtain ⟨p, hp⟩ := write_parse_ok parse dev 0 off hl hz
      have hw : satan_cdev_write parse dev user len off
          = satan_cdev_write_parse parse dev 0 off := by
        unfold satan_cdev_write
        rw [if_pos hge]
      exact ⟨_, hw.trans hp⟩
    · rw [if_neg hge] at hz
      have hlt : off < CDEV_BUF_SIZE := by omega
      by_cases hbig : (CDEV_BUF_SIZE : Int) - off < len
      · exact ⟨_, write_no_space parse dev user len off h0 hlt hbig⟩
      · by_cases hshort : user.length < len
        · exact ⟨_, write_fault parse dev user len off hl h0 hlt (by omega) hshort⟩
        · have hlen : (user.take len).length = len := by
            rw [List.length_take]; omega
          rw [write_user_take]
          have happ := write_applied parse dev (user.take len) off h0 hlt
            (by rw [hlen]; omega) hl
          rw [hlen] at happ
          rw [happ]
          obtain ⟨p, hp⟩ := write_parse_ok parse
            { dev with buf := overlay dev.buf off.toNat (user.take len) } len (off + len)
            (by
              show (overlay dev.buf off.toNat (user.take len)).length = CDEV_BUF_SIZE
              rw [overlay_length _ _ _ (by rw [hl, hlen]; omega), hl])
            hz
          exact ⟨_, hp⟩

/-- Witness of `cursor_invariant`: a read and a write at offset 100 of the
constructed device. -/
theorem cursor_invariant_witness :
    (∃ r : read_result, satan_cdev_read constructed 8 200 100 = .ok r
        ∧ 0 ≤ r.offset ∧ r.offset ≤ CDEV_BUF_SIZE)
    ∧ satan_cdev_write parse_ok constructed text_help 200 100
        = .ok { ret := -ENOSPC, offset := 100, dev := constructed, dispatched := none } :=
  have h := cursor_invariant parse_ok constructed text_help 8 200 100 (by decide) (by decide)
    (by decide)
  ⟨h.1, h.2.2.2 (by decide) (by decide)⟩

/-! ## Clearing on dispatch -/

theorem copy_from_user_length (dst user : List Nat) (pos : Int) (n : Nat)
    (b : List Nat) (u : Nat) (h : copy_from_user dst pos user n = some (b, u)) :
    b.length = dst.length := by
  unfold copy_from_user at h
  by_cases hn : n = 0
  · simp only [hn, if_true, Option.some.injEq, Prod.mk.injEq] at h
    rw [← h.1]
  · by_cases hin : 0 ≤ pos ∧ pos + n ≤ dst.length
    · simp only [hn, if_false, hin, and_self, if_true, Option.some.injEq, Prod.mk.injEq] at h
      rw [← h.1]
      simp only [List.length_append, List.length_take, List.length_drop,
        List.length_replicate]
      omega
    · simp only [hn, if_false, hin, Option.some.injEq] at h
      cases h

theorem write_parse_clears (parse : List Nat → Int) (dev : satan_cdev) (ret off : Int)
    (r : write_result) (hl : dev.buf.length = CDEV_BUF_SIZE)
    (h : satan_cdev_write_parse parse dev ret off = .ok r) :
    r.dev.buf = zero_buf := by
  obtain ⟨z, hz⟩ : ∃ z, strrchr dev.buf NEWLINE = some z := by
    cases hs : strrchr dev.buf NEWLINE with
    | none =>
      unfold satan_cdev_write_parse at h
      rw [hs] at h
      cases h
    | some z => exact ⟨z, rfl⟩
  have hmem : 0 ∈ dev.buf := by
    by_contra hno
    have := (strrchr_loop_eq_none NEWLINE dev.buf 0 none).2 hno
    unfold strrchr at hz
    rw [this] at hz
    cases hz
  obtain ⟨p, hp⟩ := write_parse_ok parse dev ret off hl hmem
  rw [hp] at h
  simp only [Except.ok.injEq] at h
  rw [← h]

/-- Every result of a write comes from the framing block (a string was
dispatched and the buffer is cleared), or is `-ENOSPC` with the device
untouched, or is `-EFAULT` after a copy that ran out of readable bytes. -/
theorem write_buf_cases (parse : List Nat → Int) (dev : satan_cdev) (user : List Nat)
    (len : Nat) (off : Int) (r : write_result) (hl : dev.buf.length = CDEV_BUF_SIZE)
    (h : satan_cdev_write parse dev user len off = .ok r) :
    (r.dispatched ≠ none ∧ r.dev.buf = zero_buf)
    ∨ (r.dispatched = none ∧ r.ret = -ENOSPC ∧ r.dev = dev)
    ∨ (r.dispatched = none ∧ r.ret = -EFAULT ∧ user.length < len) := by
  unfold satan_cdev_write at h
  have hdisp : ∀ (d : satan_cdev) (a b : Int), d.buf.length = CDEV_BUF_SIZE →
      satan_cdev_write_parse parse d a b = .ok r →
      r.dispatched ≠ none ∧ r.dev.buf = zero_buf := by
    intro d a b hd hr
    refine ⟨?_, write_parse_clears parse d a b r hd hr⟩
    have hmem : 0 ∈ d.buf := by
      by_contra hno
      have hnone := (strrchr_loop_eq_none NEWLINE d.buf 0 none).2 hno
      unfold satan_cdev_write_parse strrchr at hr
      rw [hnone] at hr
      cases hr
    obtain ⟨p, hp⟩ := write_parse_ok parse d a b hd hmem
    rw [hp] at hr
    simp only [Except.ok.injEq] at hr
    rw [← hr]
    simp
  split at h
  · exact Or.inl (hdisp dev 0 off hl h)
  · split at h
    · simp only [Except.ok.injEq] at h
      subst h
      exact Or.inr (Or.inl ⟨rfl, rfl, rfl⟩)
    · cases hc : copy_from_user dev.buf off user len with
      | none => rw [hc] at h; cases h
      | some res =>
        obtain ⟨buf', uncopied⟩ := res
        rw [hc] at h
        have hlen' : buf'.length = CDEV_BUF_SIZE :=
          (copy_from_user_length dev.buf user off len buf' uncopied hc).trans hl
        by_cases hu : uncopied ≠ 0
        · simp only [hu, ne_eq, not_false_eq_true, if_true, Except.ok.injEq] at h
          subst h
          refine Or.inr (Or.inr ⟨rfl, rfl, ?_⟩)
          unfold copy_from_user at hc
          by_cases hn : len = 0
          · simp only [hn, if_true, Option.some.injEq, Prod.mk.injEq] at hc
            exact absurd hc.2.symm hu
          · by_cases hin : 0 ≤ off ∧ off + len ≤ dev.buf.length
            · simp only [hn, if_false, hin, and_self, if_true, Option.some.injEq,
                Prod.mk.injEq, List.length_take] at hc
              have := hc.2
              omega
            · simp only [hn, if_false, hin, Option.some.injEq] at hc
              cases hc
        · simp only [hu, if_false] at h
          exact Or.inl (hdisp _ _ _ hlen' h)

/-- C11: for every content of the 128-byte buffer, every offset and data,
whenever a call of `satan_cdev_write` hands a string to the interpreter, all
`C = 128` bytes of the buffer are zero when the call returns. -/
theorem clear_on_dispatch (parse : List Nat → Int) (dev : satan_cdev) (user : List Nat)
    (len : Nat) (off : Int) (r : write_result) (hl : dev.buf.length = CDEV_BUF_SIZE)
    (h : satan_cdev_write parse dev user len off = .ok r) (hd : r.dispatched ≠ none) :
    r.dev.buf = zero_buf := by
  rcases write_buf_cases parse dev user len off r hl h with ⟨_, hb⟩ | ⟨hn, _⟩ | ⟨hn, _⟩
  · exact hb
  · exact absurd hn hd
  · exact absurd hn hd

/-- Witness of `clear_on_dispatch`: `"cmdA\\ncmdB\\n"` written over a buffer
that holds other bytes. -/
theorem clear_on_dispatch_witness :
    ({ ret := 10, offset := 10, dev := { semaphore := 0, buf := zero_buf },
       dispatched := some [99, 109, 100, 65, 10, 99, 109, 100, 66] } : write_result).dev.buf
      = zero_buf :=
  clear_on_dispatch parse_ok
    { semaphore := 0, buf := overlay zero_buf 0 (List.replicate 20 120) }
    text_two_lines 10 0 _ (by decide) (by decide) (by decide)

/-- A read at a negative offset has a result only when it copies nothing, and
then it returns 0. -/
theorem read_negative_offset (dev : satan_cdev) (writable len : Nat) (off : Int)
    (r : read_result) (hneg : off < 0)
    (hr : satan_cdev_read dev writable len off = .ok r) : r.ret = 0 := by
  unfold satan_cdev_read at hr
  have hge : ¬ ((CDEV_BUF_SIZE : Int) ≤ off) := by unfold CDEV_BUF_SIZE; omega
  rw [if_neg hge] at hr
  dsimp only at hr
  generalize hv : to_int ((min len (size_t_sub CDEV_BUF_SIZE (to_size_t off)) : Nat) : Int)
    = v at hr
  have hrange : -2147483648 ≤ v ∧ v < 2147483648 := by
    rw [← hv]; unfold to_int; omega
  generalize hk : to_size_t v = k at hr
  have hc : copy_to_user writable dev.buf off k = if k = 0 then some ([], 0) else none := by
    unfold copy_to_user
    by_cases hn : k = 0
    · rw [if_pos hn, if_pos hn]
    · have hin : ¬ (0 ≤ off ∧ off + (k : Int) ≤ dev.buf.length) :=
        fun h => absurd h.1 (by omega)
      rw [if_neg hn, if_neg hn, if_neg hin]
  rw [hc] at hr
  by_cases hn : k = 0
  · rw [if_pos hn] at hr
    simp only [ne_eq, not_true_eq_false, if_false, Except.ok.injEq] at hr
    subst hr
    show v = 0
    unfold to_size_t at hk
    omega
  · rw [if_neg hn] at hr
    cases hr

/-- C13: for `0 ≤ offset < C`, when the copy-out faults (the destination
accepts fewer bytes than `min(len, C - offset)`), `satan_cdev_read` returns
`-EFAULT` and leaves the offset and the device unchanged; and whatever the
offset, a call that returns `-EFAULT` had such a copy-out fault. -/
theorem read_fault_only (dev : satan_cdev) (writable len : Nat) (off : Int)
    (hl : dev.buf.length = CDEV_BUF_SIZE) :
    (0 ≤ off → off < CDEV_BUF_SIZE → writable < min len (CDEV_BUF_SIZE - off.toNat) →
      satan_cdev_read dev writable len off
        = .ok { ret := -EFAULT, offset := off,
                user := (dev.buf.drop off.toNat).take writable, dev := dev })
    ∧ (∀ r : read_result, satan_cdev_read dev writable len off = .ok r → r.ret = -EFAULT →
        0 ≤ off ∧ off < CDEV_BUF_SIZE ∧ writable < min len (CDEV_BUF_SIZE - off.toNat)) := by
  refine ⟨fun h0 h1 hroom => read_fault dev writable len off hl h0 h1 hroom, ?_⟩
  intro r hr hret
  by_cases hge : (CDEV_BUF_SIZE : Int) ≤ off
  · rw [read_at_end dev writable len off hge] at hr
    simp only [Except.ok.injEq] at hr
    subst hr
    have hret' : (0 : Int) = -EFAULT := hret
    exact absurd hret' (by decide)
  · have hlt : off < CDEV_BUF_SIZE := by omega
    by_cases h0 : 0 ≤ off
    · refine ⟨h0, hlt, ?_⟩
      by_contra hroom
      rw [read_in_range dev writable len off hl h0 hlt (by omega)] at hr
      simp only [Except.ok.injEq] at hr
      subst hr
      simp only [EFAULT] at hret
      omega
    · have hz := read_negative_offset dev writable len off r (by omega) hr
      rw [hz] at hret
      exact absurd hret (by decide)

/-- Witness of `read_fault_only`: 16 bytes requested at offset 0, 5 writable. -/
theorem read_fault_only_witness :
    satan_cdev_read constructed 5 16 0
      = .ok { ret := -EFAULT, offset := 0,
              user := (constructed.buf.drop (0 : Int).toNat).take 5, dev := constructed } :=
  (read_fault_only constructed 5 16 0 (by decide)).1 (by decide) (by decide) (by decide)

/-! ## Copy faults -/

/-- C12, as the code has it: a write with `0 ≤ offset < C` and
`len ≤ C - offset` whose copy-in faults (fewer than `len` bytes are readable)
returns `-EFAULT`, makes no dispatch and leaves the offset unchanged; the bytes
of the buffer outside `buffer[offset : offset + len]` are unchanged, while that
range holds the bytes that were copied before the fault followed by zeros:
`copy_from_user` writes into `satan_cdev.buf` itself and nothing is rolled back. -/
theorem write_fault_state (parse : List Nat → Int) (dev : satan_cdev) (user : List Nat)
    (len : Nat) (off : Int) (hl : dev.buf.length = CDEV_BUF_SIZE)
    (h0 : 0 ≤ off) (h1 : off < CDEV_BUF_SIZE)
    (hfit : (len : Int) ≤ CDEV_BUF_SIZE - off) (hshort : user.length < len) :
    satan_cdev_write parse dev user len off
      = .ok { ret := -EFAULT, offset := off,
              dev := { dev with
                buf := overlay dev.buf off.toNat (user ++ List.replicate (len - user.length) 0) },
              dispatched := none } :=
  write_fault parse dev user len off hl h0 h1 hfit hshort

/-- Witness of `write_fault_state`: 8 bytes requested at offset 3 with only
`"help"` readable. -/
theorem write_fault_state_witness :
    satan_cdev_write parse_ok constructed text_help 8 3
      = .ok { ret := -EFAULT, offset := 3,
              dev := { constructed with
                buf := overlay constructed.buf (3 : Int).toNat
                  (text_help ++ List.replicate (8 - text_help.length) 0) },
              dispatched := none } :=
  write_fault_state parse_ok constructed text_help 8 3 (by decide) (by decide) (by decide)
    (by decide) (by decide)

/-- C12 fails on the code: a write of 8 bytes at offset 0 of the constructed
device with only `"help"` readable returns `-EFAULT`, and the buffer then starts
with `"help"` instead of being as before. -/
theorem write_fault_counterexample :
    satan_cdev_write parse_ok constructed text_help 8 0
        = .ok { ret := -EFAULT, offset := 0,
                dev := { semaphore := 1, buf := text_help ++ List.replicate 124 0 },
                dispatched := none }
    ∧ text_help ++ List.replicate 124 0 ≠ constructed.buf := by
  decide

/-! ## Module start -/

/-- C14 fails on the code: when `cdev_add`, `class_create` or `device_create`
fails, `satan_cdev_init` returns a non-zero value with everything the earlier
steps acquired still held (the device number and the cdev; then also the cdev
registration; then also the class), and a failing `cdev_alloc` is dereferenced. -/
theorem init_failure_keeps_resources :
    satan_cdev_init { env_ok with cdev_add := -12 } constructed
        = some { ret := -12,
                 held := { num := true, cdev := true, cdev_added := false,
                           sysfs_class := false, node := false },
                 dev := constructed }
    ∧ satan_cdev_init { env_ok with class_create := false } constructed
        = some { ret := -1,
                 held := { num := true, cdev := true, cdev_added := true,
                           sysfs_class := false, node := false },
                 dev := constructed }
    ∧ satan_cdev_init { env_ok with device_create := false } constructed
        = some { ret := -1,
                 held := { num := true, cdev := true, cdev_added := true,
                           sysfs_class := true, node := false },
                 dev := constructed }
    ∧ satan_cdev_init { env_ok with cdev_alloc := false } constructed = none := by
  decide

/-- The result of `satan_cdev_init` when every registration call succeeds. -/
theorem init_success (env : init_env) (dev : satan_cdev)
    (hl : dev.buf.length = CDEV_BUF_SIZE)
    (h1 : env.alloc_chrdev_region = 0) (h2 : env.cdev_alloc = true) (h3 : env.cdev_add = 0)
    (h4 : env.class_create = true) (h5 : env.device_create = true) :
    satan_cdev_init env dev
      = some { ret := 0,
               held := { num := true, cdev := true, cdev_added := true, sysfs_class := true,
                         node := true },
               dev := constructed } := by
  unfold satan_cdev_init
  simp only [h1, h2, h3, h4, h5, ne_eq, not_true_eq_false, if_false, Bool.true_eq_false,
    memset_whole dev.buf hl]
  rfl

/-- A call of `satan_cdev_init` that returns 0 went through every step. -/
theorem init_zero_steps (env : init_env) (dev : satan_cdev) (r : init_result)
    (h : satan_cdev_init env dev = some r) (hret : r.ret = 0) :
    env.alloc_chrdev_region = 0 ∧ env.cdev_alloc = true ∧ env.cdev_add = 0
      ∧ env.class_create = true ∧ env.device_create = true := by
  unfold satan_cdev_init at h
  dsimp only at h
  by_cases h1 : env.alloc_chrdev_region = 0
  · cases h2 : env.cdev_alloc with
    | false => simp [h1, h2] at h
    | true =>
      by_cases h3 : env.cdev_add = 0
      · cases h4 : env.class_create with
        | false =>
          simp only [h1, h2, h3, h4, ne_eq, not_true_eq_false, if_false, if_true,
            Bool.true_eq_false, Option.some.injEq] at h
          subst h
          have hret' : (-1 : Int) = 0 := hret
          exact absurd hret' (by decide)
        | true =>
          cases h5 : env.device_create with
          | false =>
            simp only [h1, h2, h3, h4, h5, ne_eq, not_true_eq_false, if_false, if_true,
              Bool.true_eq_false, Option.some.injEq] at h
            subst h
            have hret' : (-1 : Int) = 0 := hret
            exact absurd hret' (by decide)
          | true => exact ⟨h1, rfl, h3, rfl, rfl⟩
      · simp only [h1, h2, h3, ne_eq, not_true_eq_false, not_false_eq_true, if_false, if_true,
          Bool.true_eq_false, Option.some.injEq] at h
        subst h
        exact absurd hret h3
  · simp only [h1, ne_eq, not_false_eq_true, if_true, Option.some.injEq] at h
    subst h
    exact absurd hret h1

/-- C17: whenever `satan_cdev_init` returns 0, all `C = 128` bytes of the buffer
are zero and the permit count is exactly 1, so that the first open returns 0
at once; and it does return 0 when every registration step succeeds. -/
theorem construction_state (env : init_env) (dev : satan_cdev)
    (hl : dev.buf.length = CDEV_BUF_SIZE) :
    (∀ r : init_result, satan_cdev_init env dev = some r → r.ret = 0 →
      r.dev.buf = zero_buf ∧ r.dev.semaphore = 1
        ∧ ∀ interrupted : Bool,
            satan_cdev_open r.dev interrupted = some (0, { r.dev with semaphore := 0 }))
    ∧ (env.alloc_chrdev_region = 0 → env.cdev_alloc = true → env.cdev_add = 0 →
        env.class_create = true → env.device_create = true →
        ∃ r : init_result, satan_cdev_init env dev = some r ∧ r.ret = 0) := by
  constructor
  · intro r h hret
    obtain ⟨h1, h2, h3, h4, h5⟩ := init_zero_steps env dev r h hret
    rw [init_success env dev hl h1 h2 h3 h4 h5] at h
    simp only [Option.some.injEq] at h
    subst h
    exact ⟨rfl, rfl, fun interrupted => open_free constructed interrupted rfl⟩
  · intro h1 h2 h3 h4 h5
    exact ⟨_, init_success env dev hl h1 h2 h3 h4 h5, rfl⟩

/-- Witness of `construction_state`: a start on a device whose buffer holds
other bytes. -/
theorem construction_state_witness :
    ∃ r : init_result,
      satan_cdev_init env_ok { semaphore := 0, buf := List.replicate 128 7 } = some r
        ∧ r.ret = 0 :=
  (construction_state env_ok { semaphore := 0, buf := List.replicate 128 7 } (by decide)).2
    rfl rfl rfl rfl rfl

/-! ## Opening the device -/

/-- C15: `satan_cdev_open` returns a non-zero value (`-1`) exactly when
`down_interruptible` fails, and then the permit count is as before; when it
returns 0 the permit has been taken (the count is one less). With a permit
available the call returns 0; without one it fails when interrupted and is
still waiting otherwise. -/
theorem open_error_handling (dev : satan_cdev) (interrupted : Bool) :
    (0 < dev.semaphore →
      satan_cdev_open dev interrupted
        = some (0, { dev with semaphore := dev.semaphore - 1 }))
    ∧ (dev.semaphore = 0 → interrupted = true →
        down_interruptible dev.semaphore interrupted = some (-EINTR, dev.semaphore)
        ∧ satan_cdev_open dev interrupted = some (-1, dev))
    ∧ (dev.semaphore = 0 → interrupted = false → satan_cdev_open dev interrupted = none)
    ∧ (∀ (r : Int) (dev' : satan_cdev), satan_cdev_open dev interrupted = some (r, dev') →
        (r ≠ 0 ↔ ∃ (e : Int) (c : Nat),
            down_interruptible dev.semaphore interrupted = some (e, c) ∧ e ≠ 0)
        ∧ (r ≠ 0 → dev'.semaphore = dev.semaphore)
        ∧ (r = 0 → dev'.semaphore + 1 = dev.semaphore)) := by
  cases dev with
  | mk sem buf =>
    by_cases hs : 0 < sem
    · refine ⟨fun _ => by simp [satan_cdev_open, down_interruptible, hs],
        fun h => absurd h (by simpa using Nat.pos_iff_ne_zero.1 hs),
        fun h => absurd h (by simpa using Nat.pos_iff_ne_zero.1 hs), ?_⟩
      intro r dev' h
      simp only [satan_cdev_open, down_interruptible, hs, if_true, ne_eq, not_true_eq_false,
        if_false, Option.some.injEq, Prod.mk.injEq] at h
      obtain ⟨hr, hd⟩ := h
      subst hr hd
      refine ⟨?_, fun h => absurd rfl h, fun _ => by simp only; omega⟩
      constructor
      · intro h; exact absurd rfl h
      · rintro ⟨e, c, he, hne⟩
        simp only [down_interruptible, hs, if_true, Option.some.injEq, Prod.mk.injEq] at he
        exact absurd he.1.symm hne
    · have hz : sem = 0 := by omega
      subst hz
      cases interrupted with
      | false =>
        refine ⟨fun h => absurd h hs, fun _ h => Bool.noConfusion h,
          fun _ _ => by simp [satan_cdev_open, down_interruptible], ?_⟩
        intro r dev' h
        simp [satan_cdev_open, down_interruptible] at h
      | true =>
        have hopen : satan_cdev_open { semaphore := 0, buf := buf } true
            = some (-1, { semaphore := 0, buf := buf }) := by
          simp [satan_cdev_open, down_interruptible, EINTR]
        refine ⟨fun h => absurd h hs,
          fun _ _ => ⟨by simp [down_interruptible], hopen⟩, fun _ h => Bool.noConfusion h, ?_⟩
        intro r dev' h
        rw [hopen] at h
        simp only [Option.some.injEq, Prod.mk.injEq] at h
        obtain ⟨hr, hd⟩ := h
        subst hr hd
        refine ⟨?_, fun _ => rfl, fun h => absurd h (by decide)⟩
        constructor
        · intro _
          exact ⟨-EINTR, 0, by simp [down_interruptible], by decide⟩
        · intro _; decide

/-- Witness of `open_error_handling`: the first open of the constructed device. -/
theorem open_error_handling_witness :
    satan_cdev_open constructed false
      = some (0, { constructed with semaphore := constructed.semaphore - 1 }) :=
  (open_error_handling constructed false).1 (by decide)

/-! ## The interpreter's result -/

/-- A write that handed a string to the interpreter returns 0 or `len`, never
an error value. -/
theorem write_dispatch_ret (parse : List Nat → Int) (dev : satan_cdev) (user : List Nat)
    (len : Nat) (off : Int) (r : write_result)
    (h : satan_cdev_write parse dev user len off = .ok r) (hd : r.dispatched ≠ none) :
    r.ret = 0 ∨ (r.ret = len ∧ len ≤ CDEV_BUF_SIZE) := by
  unfold satan_cdev_write at h
  by_cases hge : (CDEV_BUF_SIZE : Int) ≤ off
  · rw [if_pos hge] at h
    exact Or.inl (write_parse_fields parse dev 0 off r h).1
  · rw [if_neg hge] at h
    by_cases hsp : size_t_sub CDEV_BUF_SIZE (to_size_t off) < len
    · rw [if_pos hsp] at h
      simp only [Except.ok.injEq] at h
      subst h
      exact absurd rfl hd
    · rw [if_neg hsp] at h
      cases hc : copy_from_user dev.buf off user len with
      | none => rw [hc] at h; cases h
      | some res =>
        obtain ⟨buf', uncopied⟩ := res
        rw [hc] at h
        by_cases hu : uncopied ≠ 0
        · simp only [hu, ne_eq, not_false_eq_true, if_true, Except.ok.injEq] at h
          subst h
          exact absurd rfl hd
        · simp only [hu, if_false] at h
          have hr := (write_parse_fields parse _ _ _ r h).1
          have hbound : len ≤ CDEV_BUF_SIZE := by
            unfold copy_from_user at hc
            by_cases hn : len = 0
            · omega
            · by_cases hin : 0 ≤ off ∧ off + len ≤ dev.buf.length
              · unfold size_t_sub to_size_t CDEV_BUF_SIZE at hsp
                unfold CDEV_BUF_SIZE at hge ⊢
                omega
              · simp only [hn, if_false, hin, Option.some.injEq] at hc
                cases hc
          refine Or.inr ⟨?_, hbound⟩
          rw [hr]
          unfold to_int
          unfold CDEV_BUF_SIZE at hbound
          omega

/-- C16: the value returned by `satan_cdev_write`, the resulting offset and the
resulting device do not depend on what `satan_command_parse` returns: two calls
that differ only in the interpreter have the same result. And a call that
dispatched returns 0 or `len`, never an error value. -/
theorem dispatch_fire_and_forget (parse1 parse2 : List Nat → Int) (dev : satan_cdev)
    (user : List Nat) (len : Nat) (off : Int) :
    satan_cdev_write parse1 dev user len off = satan_cdev_write parse2 dev user len off
    ∧ (∀ r : write_result, satan_cdev_write parse1 dev user len off = .ok r →
        r.dispatched ≠ none → 0 ≤ r.ret) := by
  refine ⟨rfl, ?_⟩
  intro r h hd
  rcases write_dispatch_ret parse1 dev user len off r h hd with h0 | ⟨hl, _⟩
  · rw [h0]
  · rw [hl]; omega

/-- Witness of `dispatch_fire_and_forget`: `"help"` dispatched to an
interpreter that fails. -/
theorem dispatch_fire_and_forget_witness :
    (0 : Int) ≤ ({ ret := 4, offset := 4, dev := constructed,
                   dispatched := some text_help } : write_result).ret :=
  (dispatch_fire_and_forget (fun _ => -1) parse_ok constructed text_help 4 0).2 _
    (by decide) (by decide)

/-! ## The newline scan and the end of the buffer -/

/-- C18 fails on the code: 128 bytes `'a'` written at offset 0 of the constructed
device pass the capacity check and fill the buffer, so that no terminator is
left in its 128 bytes; the newline scan then runs past the end of the buffer
and the call has no defined result. -/
theorem scan_leaves_buffer :
    (0 : Nat) ∉ overlay constructed.buf 0 (List.replicate 128 97)
    ∧ strrchr (overlay constructed.buf 0 (List.replicate 128 97)) NEWLINE = none
    ∧ satan_cdev_write parse_ok constructed (List.replicate 128 97) 128 0
        = .error .out_of_bounds := by
  decide

/-! ## Writes behind the start of the cleared buffer -/

/-- C20: for every data and every offset with `0 < offset < C` and
`len(data) ≤ C - offset`, a write into the all-zero buffer whose copy-in
succeeds returns `len(data)`, advances the offset, leaves the buffer all zero
and dispatches the empty string, whatever the data holds: byte 0 of the buffer
is still the terminator when the buffer is read as a C string. -/
theorem write_later_dispatches_empty (parse : List Nat → Int) (dev : satan_cdev)
    (data : List Nat) (off : Int) (hz : dev.buf = zero_buf) (h0 : 0 < off)
    (h1 : off < CDEV_BUF_SIZE) (hfit : (data.length : Int) ≤ CDEV_BUF_SIZE - off) :
    satan_cdev_write parse dev data data.length off
      = .ok { ret := data.length, offset := off + data.length, dev := dev,
              dispatched := some [] } :=
  write_zero_later parse dev data off hz h0 h1 hfit

/-- Witness of `write_later_dispatches_empty`: `"cmdA\\ncmdB\\n"` written at
offset 5. -/
theorem write_later_dispatches_empty_witness :
    satan_cdev_write parse_ok constructed text_two_lines text_two_lines.length 5
      = .ok { ret := text_two_lines.length, offset := 5 + text_two_lines.length,
              dev := constructed, dispatched := some [] } :=
  write_later_dispatches_empty parse_ok constructed text_two_lines 5 rfl (by decide)
    (by decide) (by decide)

/-! ## The buffer between calls -/

/-- Every byte a read stores at the user pointer is a byte of the buffer. -/
theorem read_user_mem (dev : satan_cdev) (writable len : Nat) (off : Int) (r : read_result)
    (h : satan_cdev_read dev writable len off = .ok r) : ∀ b ∈ r.user, b ∈ dev.buf := by
  unfold satan_cdev_read at h
  by_cases hge : (CDEV_BUF_SIZE : Int) ≤ off
  · rw [if_pos hge] at h
    simp only [Except.ok.injEq] at h
    subst h
    intro b hb
    cases hb
  · rw [if_neg hge] at h
    dsimp only at h
    generalize to_int ((min len (size_t_sub CDEV_BUF_SIZE (to_size_t off)) : Nat) : Int)
      = v at h
    generalize to_size_t v = k at h
    cases hc : copy_to_user writable dev.buf off k with
    | none => rw [hc] at h; cases h
    | some res =>
      obtain ⟨stored, uncopied⟩ := res
      rw [hc] at h
      have hstored : ∀ b ∈ stored, b ∈ dev.buf := by
        unfold copy_to_user at hc
        by_cases hn : k = 0
        · rw [if_pos hn] at hc
          simp only [Option.some.injEq, Prod.mk.injEq] at hc
          intro b hb
          rw [← hc.1] at hb
          cases hb
        · rw [if_neg hn] at hc
          by_cases hin : 0 ≤ off ∧ off + (k : Int) ≤ dev.buf.length
          · rw [if_pos hin] at hc
            simp only [Option.some.injEq, Prod.mk.injEq] at hc
            intro b hb
            rw [← hc.1] at hb
            exact List.mem_of_mem_drop (List.mem_of_mem_take hb)
          · rw [if_neg hin] at hc
            cases hc
      by_cases hu : uncopied ≠ 0
      · simp only [hu, ne_eq, not_false_eq_true, if_true, Except.ok.injEq] at h
        subst h
        exact hstored
      · simp only [hu, if_false, Except.ok.injEq] at h
        subst h
        exact hstored

/-- A write without a copy fault leaves the cleared buffer cleared. -/
theorem write_keeps_zero (parse : List Nat → Int) (dev : satan_cdev) (sid : Nat)
    (user : List Nat) (len : Nat) (off : Int) (r : write_result)
    (hz : dev.buf = zero_buf) (hff : fault_free (.op_write sid user len off))
    (h : satan_cdev_write parse dev user len off = .ok r) : r.dev.buf = zero_buf := by
  have hl : dev.buf.length = CDEV_BUF_SIZE := by rw [hz]; exact length_zero_buf
  obtain ⟨h0, hread⟩ := hff
  rcases write_buf_cases parse dev user len off r hl h with ⟨_, hb⟩ | ⟨_, _, hd⟩ | ⟨_, hr, hs⟩
  · exact hb
  · rw [hd]; exact hz
  · exfalso
    rcases write_cases parse dev user len off h0 r h with
      ⟨_, hr0, _⟩ | ⟨_, _, hreq⟩ | ⟨hlt, hfit, _⟩ | ⟨_, _, hrl, _⟩
    · rw [hr0] at hr; exact absurd hr (by decide)
    · rw [hreq] at hr
      have hr' : -ENOSPC = -EFAULT := hr
      exact absurd hr' (by decide)
    · have := hread hlt hfit
      omega
    · rw [hrl] at hr
      unfold EFAULT at hr
      omega

theorem step_keeps_zero (parse : List Nat → Int) (s s' : system) (c : call)
    (hz : s.dev.buf = zero_buf) (hff : fault_free c) (h : step parse s c = some s') :
    s'.dev.buf = zero_buf := by
  cases c with
  | op_open sid interrupted =>
    simp only [step] at h
    cases ho : satan_cdev_open s.dev interrupted with
    | none => rw [ho] at h; cases h
    | some res =>
      obtain ⟨r, dev'⟩ := res
      rw [ho] at h
      have hbuf : dev'.buf = s.dev.buf := by
        unfold satan_cdev_open at ho
        cases hd : down_interruptible s.dev.semaphore interrupted with
        | none => rw [hd] at ho; cases ho
        | some p =>
          obtain ⟨e, c⟩ := p
          rw [hd] at ho
          by_cases he : 0 ≠ e
          · simp only [he, ne_eq, not_false_eq_true, if_true, Option.some.injEq,
              Prod.mk.injEq] at ho
            rw [← ho.2]
          · simp only [he, if_false, Option.some.injEq, Prod.mk.injEq] at ho
            rw [← ho.2]
      by_cases hr : r = 0
      · simp only [hr, if_true, Option.some.injEq] at h
        subst h
        exact hbuf.trans hz
      · simp only [hr, if_false, Option.some.injEq] at h
        subst h
        exact hbuf.trans hz
  | op_close sid =>
    simp only [step] at h
    by_cases hm : sid ∈ s.inside
    · simp only [hm, if_true, Option.some.injEq] at h
      subst h
      exact hz
    · simp [hm] at h
  | op_read sid writable len offset =>
    simp only [step] at h
    by_cases hm : sid ∈ s.inside
    · simp only [hm, if_true] at h
      cases hr : satan_cdev_read s.dev writable len offset with
      | error e => rw [hr] at h; cases h
      | ok r =>
        rw [hr] at h
        simp only [Option.some.injEq] at h
        subst h
        simp only [read_dev s.dev writable len offset r hr]
        exact hz
    · simp [hm] at h
  | op_write sid user len offset =>
    simp only [step] at h
    by_cases hm : sid ∈ s.inside
    · simp only [hm, if_true] at h
      cases hr : satan_cdev_write parse s.dev user len offset with
      | error e => rw [hr] at h; cases h
      | ok r =>
        rw [hr] at h
        simp only [Option.some.injEq] at h
        subst h
        exact write_keeps_zero parse s.dev sid user len offset r hz hff hr
    · simp [hm] at h

theorem run_keeps_zero (parse : List Nat → Int) (cs : List call) (s s' : system)
    (hz : s.dev.buf = zero_buf) (hff : ∀ c ∈ cs, fault_free c)
    (h : run parse s cs = some s') : s'.dev.buf = zero_buf := by
  induction cs generalizing s with
  | nil =>
    simp only [run, Option.some.injEq] at h
    subst h
    exact hz
  | cons c cs ih =>
    simp only [run] at h
    cases hs : step parse s c with
    | none => rw [hs] at h; cases h
    | some t =>
      rw [hs] at h
      exact ih t
        (step_keeps_zero parse s t c hz (hff c (List.mem_cons_self _ _)) hs)
        (fun d hd => hff d (List.mem_cons_of_mem _ hd)) h

/-- C19: in every state reached from a successful `satan_cdev_init` by a series
of completed open, close, read and write calls at offsets `≥ 0` without a copy
fault, all 128 bytes of the buffer are zero (the series being arbitrary, this
holds when each of its calls returns); so every read in such a state, whatever
its offset and length, delivers only zero bytes. -/
theorem buffer_zero_between_calls (parse : List Nat → Int) (env : init_env)
    (dev0 : satan_cdev) (r0 : init_result) (cs : List call) (s : system)
    (hl : dev0.buf.length = CDEV_BUF_SIZE)
    (hinit : satan_cdev_init env dev0 = some r0) (hret : r0.ret = 0)
    (hff : ∀ c ∈ cs, fault_free c)
    (hrun : run parse { dev := r0.dev, inside := [] } cs = some s) :
    s.dev.buf = zero_buf
    ∧ ∀ (writable len : Nat) (off : Int) (r : read_result),
        satan_cdev_read s.dev writable len off = .ok r → ∀ b ∈ r.user, b = 0 := by
  obtain ⟨h1, h2, h3, h4, h5⟩ := init_zero_steps env dev0 r0 hinit hret
  rw [init_success env dev0 hl h1 h2 h3 h4 h5] at hinit
  simp only [Option.some.injEq] at hinit
  subst hinit
  have hz : s.dev.buf = zero_buf :=
    run_keeps_zero parse cs { dev := constructed, inside := [] } s rfl hff hrun
  refine ⟨hz, ?_⟩
  intro writable len off r hr b hb
  have hmem := read_user_mem s.dev writable len off r hr b hb
  rw [hz] at hmem
  exact List.eq_of_mem_replicate hmem

/-- Witness of `buffer_zero_between_calls`: after a start, session 1 opens,
writes `"help"`, reads and closes. -/
theorem buffer_zero_between_calls_witness :
    ({ dev := constructed, inside := [] } : system).dev.buf = zero_buf :=
  (buffer_zero_between_calls parse_ok env_ok constructed
    { ret := 0,
      held := { num := true, cdev := true, cdev_added := true, sysfs_class := true,
                node := true },
      dev := constructed }
    [.op_open 1 false, .op_write 1 text_help 4 0, .op_read 1 16 16 0, .op_close 1]
    { dev := constructed, inside := [] }
    (by decide) (by decide) rfl
    (by
      intro c hc
      simp only [List.mem_cons, List.mem_singleton, List.not_mem_nil, or_false] at hc
      rcases hc with rfl | rfl | rfl | rfl <;> simp [fault_free, text_help])
    (by decide)).1

end Cdev
